import Mathlib

/-!
Verification development for the SDUI-SP32-S3 firmware core.

The development shallowly embeds three components of the firmware:

* the message bus (`sdui_bus.c`): downlink envelope demultiplexing
  (`sdui_bus_route_down`) and uplink envelope wrapping (`sdui_bus_publish_up`);
* the WebSocket transport (`websocket_manager.c`): fragment reassembly in
  `websocket_event_handler` and the offline send-drop in `websocket_send_json`;
* the SDUI layout engine (`sdui_parser.c`): `sdui_parser_render`,
  `sdui_parser_update`, the ID registry, and the spin-animation counter.

The firmware manipulates JSON through the external cJSON library, which is not
part of the repository; a faithful executable model of the parts of cJSON the
firmware calls (`cJSON_Parse`, `cJSON_PrintUnformatted`, `cJSON_GetObjectItem`,
the type predicates) is defined first.  Numbers are modelled as integers: the
claims under verification never depend on fractional values, and cJSON's
double-based number handling has no exact counterpart here, so inputs whose
numbers carry a fraction or an exponent are outside the model.
-/

namespace SduiSpec

/-! ## The cJSON value model

Modelled from the spec's wire-format section: a JSON value is null, a boolean,
a number (restricted to integers here), a string, an array, or an object whose
members are ordered key/value pairs.  cJSON keeps object members in insertion
order and allows duplicate keys; both behaviours are preserved by using a plain
association list. -/

inductive Json where
  | nul
  | bool (b : Bool)
  | num (n : Int)
  | str (s : String)
  | arr (items : List Json)
  | obj (members : List (String × Json))

/-- Modelled from cJSON `buffer_skip_whitespace`: every byte with code at most
32 is skipped. -/
def cjson_skip_ws : List Char → List Char
  | c :: r => if c.toNat ≤ 32 then cjson_skip_ws r else c :: r
  | [] => []

/-- Decimal digit test, as in cJSON's number scanner. -/
def is_digit (c : Char) : Bool := 48 ≤ c.toNat && c.toNat ≤ 57

/-- Longest digit run at the head of the input, and the remainder. -/
def take_digits : List Char → List Char × List Char
  | c :: r =>
      if is_digit c then
        let p := take_digits r
        (c :: p.1, p.2)
      else ([], c :: r)
  | [] => ([], [])

/-- Value of a digit run read in base 10. -/
def digits_val (ds : List Char) : Nat :=
  ds.foldl (fun a c => a * 10 + (c.toNat - 48)) 0

/-- A remainder that cannot extend an integer literal: empty input, or input
whose head is neither a digit nor one of the continuation characters `.`,
`e`, `E` that cJSON's double syntax would consume. -/
def num_stop : List Char → Bool
  | [] => true
  | c :: _ => !(is_digit c || c == '.' || c == 'e' || c == 'E')

/-- Modelled from cJSON `parse_number`, restricted to integers: an optional
minus sign followed by a nonempty digit run.  A fraction or exponent would be
parsed by cJSON into a double; the integer model refuses it instead of
misreading it, which keeps the model sound on the inputs it accepts. -/
def parse_number (s : List Char) : Option (Json × List Char) :=
  match s with
  | '-' :: r =>
      let p := take_digits r
      if p.1 = [] then none
      else if num_stop p.2 then some (.num (-(digits_val p.1 : Int)), p.2) else none
  | _ =>
      let p := take_digits s
      if p.1 = [] then none
      else if num_stop p.2 then some (.num (digits_val p.1 : Int), p.2) else none

/-- Value of a hexadecimal digit, accepting both letter cases. -/
def hex_val (c : Char) : Option Nat :=
  if 48 ≤ c.toNat ∧ c.toNat ≤ 57 then some (c.toNat - 48)
  else if 97 ≤ c.toNat ∧ c.toNat ≤ 102 then some (c.toNat - 87)
  else if 65 ≤ c.toNat ∧ c.toNat ≤ 70 then some (c.toNat - 55)
  else none

/-- Modelled from cJSON `parse_hex4`: four hexadecimal digits. -/
def hex4 (a b c d : Char) : Option Nat := do
  let va ← hex_val a
  let vb ← hex_val b
  let vc ← hex_val c
  let vd ← hex_val d
  pure (((va * 16 + vb) * 16 + vc) * 16 + vd)

/-- Modelled from cJSON `parse_string`: the single-character escapes. -/
def unescape_char : Char → Option Char
  | 'b' => some (Char.ofNat 8)
  | 'f' => some (Char.ofNat 12)
  | 'n' => some '\n'
  | 'r' => some '\r'
  | 't' => some '\t'
  | '"' => some '"'
  | '\\' => some '\\'
  | '/' => some '/'
  | _ => none

/-- Modelled from cJSON `parse_string`, after the opening quote: any character
other than a quote or a backslash is taken verbatim, escapes are decoded, and a
`\u` escape must be a valid scalar or a high/low surrogate pair (a lone
surrogate is rejected, as cJSON rejects it). -/
def parse_string_rest : Option Nat → List Char → List Char → Option (String × List Char)
  | _, _, [] => none
  | pending, acc, c :: r =>
      if c = '\\' then
        match r with
        | 'u' :: a :: b :: c2 :: d :: r2 =>
            match hex4 a b c2 d with
            | none => none
            | some n =>
                match pending with
                | some hi =>
                    if 0xDC00 ≤ n ∧ n ≤ 0xDFFF then
                      parse_string_rest none
                        (Char.ofNat (0x10000 + (hi - 0xD800) * 0x400 + (n - 0xDC00)) :: acc) r2
                    else none
                | none =>
                    if n < 0xD800 ∨ 0xDFFF < n then
                      parse_string_rest none (Char.ofNat n :: acc) r2
                    else if 0xDBFF < n then none
                    else parse_string_rest (some n) acc r2
        | e :: r2 =>
            match unescape_char e, pending with
            | some ch, none => parse_string_rest none (ch :: acc) r2
            | _, _ => none
        | [] => none
      else if pending.isSome then none
      else if c = '"' then some (⟨acc.reverse⟩, r)
      else parse_string_rest none (c :: acc) r

mutual

/-- Modelled from cJSON `parse_value`: dispatch on the literal keywords, then
strings, numbers, arrays and objects.  The `fuel` argument bounds the nesting
the parser will walk; the top-level entry point supplies more fuel than any
input of its length can consume.  (cJSON bounds nesting at 1000 instead; the
claims never reach either bound, and the model leaves it out.) -/
def parse_value : Nat → List Char → Option (Json × List Char)
  | 0, _ => none
  | fuel + 1, s =>
      match cjson_skip_ws s with
      | 'n' :: 'u' :: 'l' :: 'l' :: r => some (.nul, r)
      | 'f' :: 'a' :: 'l' :: 's' :: 'e' :: r => some (.bool false, r)
      | 't' :: 'r' :: 'u' :: 'e' :: r => some (.bool true, r)
      | '"' :: r =>
          match parse_string_rest none [] r with
          | some (s, r2) => some (.str s, r2)
          | none => none
      | '[' :: r =>
          match cjson_skip_ws r with
          | [] => none
          | c2 :: r2 =>
              if c2 = ']' then some (.arr [], r2)
              else
                match parse_array_rest fuel (c2 :: r2) with
                | some (es, r3) => some (.arr es, r3)
                | none => none
      | '\x7b' :: r =>
          match cjson_skip_ws r with
          | [] => none
          | c2 :: r2 =>
              if c2 = '\x7d' then some (.obj [], r2)
              else
                match parse_object_rest fuel (c2 :: r2) with
                | some (ms, r3) => some (.obj ms, r3)
                | none => none
      | c :: r => if c == '-' || is_digit c then parse_number (c :: r) else none
      | [] => none

/-- Modelled from cJSON `parse_array`, after the opening bracket of a nonempty
array: one value, then either a comma and more values or the closing bracket. -/
def parse_array_rest : Nat → List Char → Option (List Json × List Char)
  | 0, _ => none
  | fuel + 1, s =>
      match parse_value fuel s with
      | none => none
      | some (v, r) =>
          match cjson_skip_ws r with
          | [] => none
          | c2 :: r2 =>
              if c2 = ',' then
                match parse_array_rest fuel r2 with
                | some (vs, r3) => some (v :: vs, r3)
                | none => none
              else if c2 = ']' then some ([v], r2)
              else none

/-- Modelled from cJSON `parse_object`, after the opening brace of a nonempty
object: a quoted key, a colon, a value, then either a comma and more members
or the closing brace. -/
def parse_object_rest : Nat → List Char → Option (List (String × Json) × List Char)
  | 0, _ => none
  | fuel + 1, s =>
      match cjson_skip_ws s with
      | [] => none
      | c0 :: r0 =>
          if c0 = '"' then
            match parse_string_rest none [] r0 with
            | none => none
            | some (k, r1) =>
                match cjson_skip_ws r1 with
                | [] => none
                | c1 :: r2 =>
                    if c1 = ':' then
                      match parse_value fuel r2 with
                      | none => none
                      | some (v, r3) =>
                          match cjson_skip_ws r3 with
                          | [] => none
                          | c3 :: r4 =>
                              if c3 = ',' then
                                match parse_object_rest fuel r4 with
                                | some (ms, r5) => some ((k, v) :: ms, r5)
                                | none => none
                              else if c3 = '\x7d' then some ([(k, v)], r4)
                              else none
                    else none
          else none

end

/-- Modelled from `cJSON_Parse`: parse one value from the front of the text.
`cJSON_Parse` calls `cJSON_ParseWithOpts` with `require_null_terminated = 0`,
so trailing content after the first complete value is ignored. -/
def cJSON_Parse (s : String) : Option Json :=
  match parse_value (s.length + 1) s.data with
  | some (j, _) => some j
  | none => none

/-- Lowercase hexadecimal digit, as printed by cJSON's `"u%04x"` format. -/
def hex_digit (n : Nat) : Char :=
  if n < 10 then Char.ofNat (48 + n) else Char.ofNat (87 + n)

/-- Modelled from cJSON `print_string_ptr`: quote and backslash are escaped,
the named control characters get their short escapes, any other character
below 32 is printed as `\u00xx`, and everything else is copied verbatim. -/
def escape_char (c : Char) : List Char :=
  if c = '\\' then ['\\', '\\']
  else if c = '"' then ['\\', '"']
  else if c.toNat = 8 then ['\\', 'b']
  else if c.toNat = 12 then ['\\', 'f']
  else if c.toNat = 10 then ['\\', 'n']
  else if c.toNat = 13 then ['\\', 'r']
  else if c.toNat = 9 then ['\\', 't']
  else if c.toNat < 32 then
    ['\\', 'u', '0', '0', hex_digit (c.toNat / 16), hex_digit (c.toNat % 16)]
  else [c]

/-- A string as printed by cJSON: quoted, with every character escaped. -/
def print_string (s : String) : List Char :=
  '"' :: (s.data.flatMap escape_char ++ ['"'])

/-- Decimal digits of a natural number, most significant first. -/
def nat_digits (n : Nat) : List Char :=
  if h : n < 10 then [Char.ofNat (48 + n)]
  else nat_digits (n / 10) ++ [Char.ofNat (48 + n % 10)]
decreasing_by exact Nat.div_lt_self (by omega) (by omega)

/-- An integer as printed by cJSON `print_number` on an integral value:
an optional minus sign and decimal digits.  (Faithful to cJSON's `%1.15g`
output for every integer of magnitude below 10^15.) -/
def int_chars (i : Int) : List Char :=
  if i < 0 then '-' :: nat_digits i.natAbs else nat_digits i.natAbs

mutual

/-- Modelled from cJSON `print_value` with `format = false`
(`cJSON_PrintUnformatted`): no whitespace anywhere. -/
def print_value : Json → List Char
  | .nul => ['n', 'u', 'l', 'l']
  | .bool false => ['f', 'a', 'l', 's', 'e']
  | .bool true => ['t', 'r', 'u', 'e']
  | .num i => int_chars i
  | .str s => print_string s
  | .arr es => '[' :: (print_items es ++ [']'])
  | .obj ms => '\x7b' :: (print_members ms ++ ['\x7d'])

/-- Array elements, comma-separated. -/
def print_items : List Json → List Char
  | [] => []
  | e :: es => print_value e ++ print_items_sep es

/-- The remaining array elements, each preceded by a comma. -/
def print_items_sep : List Json → List Char
  | [] => []
  | e :: es => ',' :: (print_value e ++ print_items_sep es)

/-- Object members, `"key":value`, comma-separated. -/
def print_members : List (String × Json) → List Char
  | [] => []
  | (k, v) :: ms => print_string k ++ ':' :: (print_value v ++ print_members_sep ms)

/-- The remaining object members, each preceded by a comma. -/
def print_members_sep : List (String × Json) → List Char
  | [] => []
  | (k, v) :: ms => ',' :: (print_string k ++ ':' :: (print_value v ++ print_members_sep ms))

end

/-- Modelled from `cJSON_PrintUnformatted`. -/
def cJSON_PrintUnformatted (j : Json) : String := ⟨print_value j⟩

/-- Byte-level lowercasing, as C `tolower` on ASCII. -/
def cjson_tolower (c : Char) : Char :=
  if 65 ≤ c.toNat ∧ c.toNat ≤ 90 then Char.ofNat (c.toNat + 32) else c

/-- Modelled from cJSON `case_insensitive_strcmp` (equality only). -/
def case_insensitive_eq (a b : String) : Bool :=
  a.data.map cjson_tolower == b.data.map cjson_tolower

/-- Modelled from `cJSON_GetObjectItem`: the first member whose key matches
case-insensitively (the plain getter is the case-insensitive one in cJSON);
on a non-object value there is no member to find. -/
def cJSON_GetObjectItem (j : Json) (key : String) : Option Json :=
  match j with
  | .obj ms => (ms.find? (fun kv => case_insensitive_eq kv.1 key)).map (fun kv => kv.2)
  | _ => none

/-- Modelled from `cJSON_IsTrue`. -/
def cjson_is_true : Json → Bool
  | .bool true => true
  | _ => false

/-! ## Message bus (`sdui_bus.c`)

A subscription record pairs a topic with a callback.  The callback function
pointer is modelled as an identifier; `none` models a NULL pointer, which the
dispatch loop skips exactly as `if (subscribers[i].cb)` does.  A dispatch is
recorded as the pair of the callback identifier and the payload argument it
receives (`none` models a NULL `char *`). -/

structure Subscriber where
  topic : String
  cb : Option Nat

/-- The `for` loop of `sdui_bus_route_down` (and of `sdui_bus_publish_local`):
every subscriber whose topic compares equal is invoked, in table order. -/
def dispatch_loop (subs : List Subscriber) (topic : String) (payload : Option String) :
    List (Nat × Option String) :=
  match subs with
  | [] => []
  | s :: rest =>
      (if s.topic = topic then
        match s.cb with
        | some c => [(c, payload)]
        | none => []
      else []) ++ dispatch_loop rest topic payload

/-- The payload materialisation of `sdui_bus_route_down`: `strdup` of the
literal value for a JSON string, `cJSON_PrintUnformatted` otherwise. -/
def payload_as_string : Json → String
  | .str s => s
  | pj => cJSON_PrintUnformatted pj

/-- `sdui_bus_route_down`: parse the envelope, extract the string `topic`,
materialise `payload` as a string (verbatim for a JSON string, compact
re-serialisation otherwise, NULL when absent), and dispatch. -/
def sdui_bus_route_down (subs : List Subscriber) (raw_json : String) :
    List (Nat × Option String) :=
  match cJSON_Parse raw_json with
  | none => []
  | some root =>
      match cJSON_GetObjectItem root "topic" with
      | some (.str topic) =>
          let payload_str : Option String :=
            (cJSON_GetObjectItem root "payload").map payload_as_string
          dispatch_loop subs topic payload_str
      | _ => []

/-- `sdui_bus_publish_up`: build the envelope object with the topic first,
then the payload, embedded structurally when the payload text parses and as a
JSON string otherwise; the function's value is the unformatted print handed to
`websocket_send_json`. -/
def sdui_bus_publish_up (topic payload : String) : String :=
  let envelope : Json := .obj [("topic", .str topic),
    ("payload",
      match cJSON_Parse payload with
      | some pj => pj
      | none => .str payload)]
  cJSON_PrintUnformatted envelope

/-! ## WebSocket transport (`websocket_manager.c`)

The handler's observable state: the connection flag, the reassembly buffer
(`some ⟨cap, content⟩` models a live allocation of `cap` bytes holding
`content`), the `rx_buffer_len` counter kept separately exactly as in the C,
and an `oob` flag that records whether any write (a `memcpy` or the NUL
terminator) would have landed outside the allocated `cap` bytes.  Outputs are
the arguments of the `global_rx_cb` invocations. -/

structure EspWsEventData where
  op_code : Nat
  payload_offset : Nat
  payload_len : Nat
  data : List Char

inductive WsEvent where
  | connected
  | disconnected
  | data (d : EspWsEventData)
  | error

structure RxBuf where
  cap : Nat
  content : List Char

structure WsMgrState where
  is_connected : Bool
  rx_buffer : Option RxBuf
  rx_buffer_len : Nat
  oob : Bool

/-- `websocket_event_handler`, one event at a time.  The model assumes the
`heap_caps_malloc` of a fresh buffer succeeds (on failure the C returns before
touching anything).  In the completion branch with `rx_buffer == NULL` the C
would write the terminator through a NULL pointer (reachable only with
`payload_len = 0` and no buffer in flight, which no WebSocket frame produces);
the model makes that branch a no-op. -/
def websocket_event_handler (st : WsMgrState) (ev : WsEvent) : WsMgrState × List String :=
  match ev with
  | .connected => ({ st with is_connected := true }, [])
  | .disconnected =>
      match st.rx_buffer with
      | some _ => ({ st with is_connected := false, rx_buffer := none, rx_buffer_len := 0 }, [])
      | none => ({ st with is_connected := false }, [])
  | .error => (st, [])
  | .data d =>
      if d.op_code = 1 ∨ d.op_code = 0 then
        let st1 :=
          if d.payload_offset = 0 then
            { st with rx_buffer := some ⟨d.payload_len + 1, []⟩, rx_buffer_len := 0 }
          else st
        let st2 :=
          match st1.rx_buffer with
          | some buf =>
              if st1.rx_buffer_len + d.data.length ≤ d.payload_len then
                { st1 with
                  rx_buffer := some ⟨buf.cap, buf.content ++ d.data⟩,
                  rx_buffer_len := st1.rx_buffer_len + d.data.length,
                  oob := st1.oob || decide (buf.cap < buf.content.length + d.data.length) }
              else st1
          | none => st1
        if st2.rx_buffer_len = d.payload_len then
          match st2.rx_buffer with
          | some buf =>
              let st3 := { st2 with
                rx_buffer := none
                rx_buffer_len := 0
                oob := st2.oob || decide (buf.cap ≤ st2.rx_buffer_len) }
              (st3, [⟨buf.content⟩])
          | none => (st2, [])
        else (st2, [])
      else (st, [])

/-- Run the handler over a list of events, collecting the callbacks. -/
def ws_run : WsMgrState → List WsEvent → WsMgrState × List String
  | st, [] => (st, [])
  | st, e :: es =>
      let p := websocket_event_handler st e
      let q := ws_run p.1 es
      (q.1, p.2 ++ q.2)

/-- The events of one fragmented text frame: data chunks whose offsets are the
running total of the previous chunks' lengths, all reporting the same total
`payload_len`.  Offsets produced this way are monotonically non-decreasing and
the data segments cover exactly the interval from 0 to the total length. -/
def frameEvents (L : Nat) : List (List Char) → Nat → List WsEvent
  | [], _ => []
  | d :: ds, off => WsEvent.data ⟨1, off, L, d⟩ :: frameEvents L ds (off + d.length)

/-- The reassembler's memory-safety invariant for a frame of `payload_len`
equal to `L`: no out-of-bounds write has happened, and any live buffer is the
`L + 1`-byte allocation holding exactly `rx_buffer_len` bytes, at most `L` of
them (so the NUL terminator at `rx_buffer_len` also fits). -/
def ws_inv (L : Nat) (st : WsMgrState) : Bool :=
  !st.oob &&
    (match st.rx_buffer with
     | none => true
     | some buf =>
         decide (buf.cap = L + 1) && decide (st.rx_buffer_len = buf.content.length)
           && decide (buf.content.length ≤ L))

/-- The transport link as `websocket_send_json` sees it: the `is_connected`
flag and whether the client handle exists. -/
structure WsLink where
  is_connected : Bool
  client : Bool

/-- `websocket_send_json`: drop the payload without any transport call when
the link is down, the client is missing, or the payload is NULL; hand exactly
one text to `esp_websocket_client_send_text` otherwise.  The function returns
the list of texts handed to the client (so the caller sees no error either
way, as the C returns `void`). -/
def websocket_send_json (link : WsLink) (payload : Option String) : List String :=
  if !link.is_connected || !link.client || payload.isNone then []
  else [payload.getD ""]

/-! ## SDUI layout engine (`sdui_parser.c`)

The retained scene graph is a forest of widget nodes under the root view.
`WData` carries the widget fields the claims are about: the widget class, the
label text, the hidden flag, the bar/slider value and range, and whether a
spin animation was started on the node.  Style-only attributes (colours,
opacity, padding, fonts) live in LVGL style state outside the model.  The ID
registry maps each registered id to the node's position path (indices among
created children), the pure counterpart of the C table's object pointers. -/

inductive WidgetKind where
  | container
  | label
  | button
  | image
  | bar
  | slider
  | particle
deriving DecidableEq

structure WData where
  kind : WidgetKind
  text : String
  hidden : Bool
  value : Int
  vmin : Int
  vmax : Int
  spinning : Bool
deriving DecidableEq

inductive WTree where
  | node (w : WData) (kids : List WTree)

/-- The widget data at a node. -/
def WTree.wdata : WTree → WData
  | .node w _ => w

/-- The children of a node. -/
def WTree.kids : WTree → List WTree
  | .node _ k => k

/-- Node lookup along a position path (the path is never empty). -/
def getW : List WTree → List Nat → Option WTree
  | _, [] => none
  | ts, [i] => ts[i]?
  | ts, i :: j :: p =>
      match ts[i]? with
      | some t => getW t.kids (j :: p)
      | none => none

/-- Apply `f` to the node at a position path, leaving everything else. -/
def modifyW (f : WTree → WTree) : List WTree → List Nat → List WTree
  | ts, [] => ts
  | ts, [i] =>
      match ts[i]? with
      | some t => ts.set i (f t)
      | none => ts
  | ts, i :: j :: p =>
      match ts[i]? with
      | some t => ts.set i (WTree.node t.wdata (modifyW f t.kids (j :: p)))
      | none => ts

/-- The registry bound, `MAX_ID_ENTRIES`. -/
def MAX_ID_ENTRIES : Nat := 64

/-- `register_id`: append when space remains; `strncpy(id, 31)` keeps at most
31 characters of the id. -/
def register_id (id : String) (path : List Nat) (tbl : List (String × List Nat)) :
    List (String × List Nat) :=
  if MAX_ID_ENTRIES ≤ tbl.length then tbl else tbl ++ [(id.take 31, path)]

/-- The spin concurrency bound, `MAX_SPIN_ANIM`. -/
def MAX_SPIN_ANIM : Nat := 2

/-- `apply_anim` on the modelled state: the `spin` branch is image-only,
denied at the concurrency cap, and otherwise marks the node spinning and
increments the counter.  Every other animation type only starts an LVGL
animation or tweaks style state outside the model, leaving the modelled
fields and the counter unchanged. -/
def apply_anim (an : Json) (w : WData) (cnt : Nat) : WData × Nat :=
  match cJSON_GetObjectItem an "type" with
  | some (.str atype) =>
      if atype = "spin" then
        if w.kind ≠ .image then (w, cnt)
        else if MAX_SPIN_ANIM ≤ cnt then (w, cnt)
        else ({ w with spinning := true }, cnt + 1)
      else (w, cnt)
  | _ => (w, cnt)

/-- `spin_delete_cb`: decrement the global counter when positive. -/
def spin_delete_cb (cnt : Nat) : Nat :=
  if 0 < cnt then cnt - 1 else cnt

/-- Defaults shared by the widget constructors. -/
def default_wdata (k : WidgetKind) : WData :=
  { kind := k, text := "", hidden := false, value := 0, vmin := 0, vmax := 100,
    spinning := false }

/-- `create_label`: text from the `text` field, empty otherwise. -/
def create_label (node : Json) : WData :=
  match cJSON_GetObjectItem node "text" with
  | some (.str t) => { default_wdata .label with text := t }
  | _ => default_wdata .label

/-- `create_button`: a `text` field creates an inline child label carrying the
text (so the button's first child is that label). -/
def create_button (node : Json) : WData × List WTree :=
  match cJSON_GetObjectItem node "text" with
  | some (.str t) =>
      (default_wdata .button, [WTree.node { default_wdata .label with text := t } []])
  | _ => (default_wdata .button, [])

/-- `LV_CLAMP`, as `lv_bar_set_value` and `lv_slider_set_value` apply it. -/
def lv_clamp (lo v hi : Int) : Int := max lo (min v hi)

/-- `create_bar`: range defaults 0..100, the initial value clamped into it. -/
def create_bar (node : Json) : WData :=
  let mn : Int := match cJSON_GetObjectItem node "min" with | some (.num m) => m | _ => 0
  let mx : Int := match cJSON_GetObjectItem node "max" with | some (.num m) => m | _ => 100
  let w := { default_wdata .bar with vmin := mn, vmax := mx }
  match cJSON_GetObjectItem node "value" with
  | some (.num v) => { w with value := lv_clamp mn v mx }
  | _ => w

/-- `create_slider`: as `create_bar`, on a slider widget (the `on_change`
binding's behaviour is modelled separately by `slider_changed_cb`). -/
def create_slider (node : Json) : WData :=
  let mn : Int := match cJSON_GetObjectItem node "min" with | some (.num m) => m | _ => 0
  let mx : Int := match cJSON_GetObjectItem node "max" with | some (.num m) => m | _ => 100
  let w := { default_wdata .slider with vmin := mn, vmax := mx }
  match cJSON_GetObjectItem node "value" with
  | some (.num v) => { w with value := lv_clamp mn v mx }
  | _ => w

/-- The widget-type dispatch of `parse_node`: the seven known types create a
widget (a button possibly with its inline label child); anything else is
rejected. -/
def create_widget (ts : String) (node : Json) : Option (WData × List WTree) :=
  if ts = "container" then some (default_wdata .container, [])
  else if ts = "label" then some (create_label node, [])
  else if ts = "button" then some (create_button node)
  else if ts = "image" then some (default_wdata .image, [])
  else if ts = "bar" then some (create_bar node, [])
  else if ts = "slider" then some (create_slider node, [])
  else if ts = "particle" then some (default_wdata .particle, [])
  else none

/-- `apply_common_style` on the modelled fields: only `hidden:true` adds the
hidden flag (the render path never clears it); every other common style key
changes LVGL style state outside the model. -/
def apply_common_style (node : Json) (w : WData) : WData :=
  match cJSON_GetObjectItem node "hidden" with
  | some h => if cjson_is_true h then { w with hidden := true } else w
  | _ => w

mutual

/-- `parse_node`: reject a node without a string `type` or with an unknown
type (no state change); otherwise create the widget, register its `id` at its
position path, apply common styles, start the `anim` if present, and recurse
into `children`.  Returns the built subtree together with the updated registry
and spin counter.  The fuel exceeds the node's nesting depth whenever the
caller passes `jsize` of the node. -/
def parse_node (fuel : Nat) (node : Json) (path : List Nat)
    (tbl : List (String × List Nat)) (cnt : Nat) :
    Option WTree × List (String × List Nat) × Nat :=
  match fuel with
  | 0 => (none, tbl, cnt)
  | fuel + 1 =>
      match cJSON_GetObjectItem node "type" with
      | some (.str ts) =>
          match create_widget ts node with
          | none => (none, tbl, cnt)
          | some (w0, kids0) =>
              let tbl1 := match cJSON_GetObjectItem node "id" with
                | some (.str id) => register_id id path tbl
                | _ => tbl
              let w1 := apply_common_style node w0
              let p := match cJSON_GetObjectItem node "anim" with
                | some (Json.obj ams) => apply_anim (Json.obj ams) w1 cnt
                | _ => (w1, cnt)
              let q := match cJSON_GetObjectItem node "children" with
                | some (.arr cs) => parse_children fuel cs path kids0.length kids0 tbl1 p.2
                | _ => (kids0, tbl1, p.2)
              (some (WTree.node p.1 q.1), q.2)
      | _ => (none, tbl, cnt)
termination_by (fuel, 0)

/-- The `children` loop of `parse_node`: each successfully built child takes
the next sibling index; a rejected child leaves no gap. -/
def parse_children (fuel : Nat) (cs : List Json) (path : List Nat) (idx : Nat)
    (acc : List WTree) (tbl : List (String × List Nat)) (cnt : Nat) :
    List WTree × List (String × List Nat) × Nat :=
  match cs with
  | [] => (acc, tbl, cnt)
  | c :: rest =>
      match parse_node fuel c (path ++ [idx]) tbl cnt with
      | (some w, tbl2, cnt2) => parse_children fuel rest path (idx + 1) (acc ++ [w]) tbl2 cnt2
      | (none, tbl2, cnt2) => parse_children fuel rest path idx acc tbl2 cnt2
termination_by (fuel, cs.length + 1)

end

mutual

/-- An executable size of a JSON value, used as parser-engine fuel: it
strictly exceeds the nesting depth of the value. -/
def jsize : Json → Nat
  | .nul => 1
  | .bool _ => 1
  | .num _ => 1
  | .str _ => 1
  | .arr es => 1 + jsize_items es
  | .obj ms => 1 + jsize_members ms

def jsize_items : List Json → Nat
  | [] => 0
  | e :: es => jsize e + jsize_items es

def jsize_members : List (String × Json) → Nat
  | [] => 0
  | (_, v) :: ms => jsize v + jsize_members ms

end

/-- The engine's modelled global state: the scene graph (the root view's
children), the ID registry `s_id_table`, and the spin counter `s_spin_count`. -/
structure EngineState where
  scene : List WTree
  id_table : List (String × List Nat)
  spin_count : Nat

/-- `sdui_parser_render`: a parse failure logs and returns before any
mutation.  On success the old tree is cleaned (which runs the deletion hooks)
and the counter and registry are reset, then the new tree is built from an
array, from an object's `children` (the object's own styles go to the root
view, outside the model), or as a single node; the root fade-in then starts.
The boolean result records whether the fade-in was started. -/
def sdui_parser_render (json_str : String) (st : EngineState) : EngineState × Bool :=
  match cJSON_Parse json_str with
  | none => (st, false)
  | some root =>
      match root with
      | .arr items =>
          let q := parse_children (jsize root) items [] 0 [] [] 0
          ({ scene := q.1, id_table := q.2.1, spin_count := q.2.2 }, true)
      | .obj ms =>
          match cJSON_GetObjectItem (.obj ms) "children" with
          | some (.arr cs) =>
              let q := parse_children (jsize root) cs [] 0 [] [] 0
              ({ scene := q.1, id_table := q.2.1, spin_count := q.2.2 }, true)
          | _ =>
              let q := parse_node (jsize root) root [0] [] 0
              match q.1 with
              | some w => ({ scene := [w], id_table := q.2.1, spin_count := q.2.2 }, true)
              | none => ({ scene := [], id_table := q.2.1, spin_count := q.2.2 }, true)
      | _ => ({ scene := [], id_table := [], spin_count := 0 }, true)

/-- `sdui_parser_find_by_id`: first registry entry with an exactly equal id. -/
def sdui_parser_find_by_id (st : EngineState) (id : String) : Option (List Nat) :=
  (st.id_table.find? (fun e => e.1 == id)).map (fun e => e.2)

/-- `lv_label_set_text` on the modelled node (the C calls it on whatever
object the update logic picked, label or not; the model updates that node's
text field). -/
def lv_label_set_text (t : WTree) (txt : String) : WTree :=
  WTree.node { t.wdata with text := txt } t.kids

/-- The `text` branch of `sdui_parser_update`: the target itself when it has
no children, its first child otherwise. -/
def update_text (txt : String) (t : WTree) : WTree :=
  match t.kids with
  | [] => lv_label_set_text t txt
  | k :: rest => WTree.node t.wdata (lv_label_set_text k txt :: rest)

/-- The `hidden` branch of `sdui_parser_update`: set or clear the flag. -/
def update_hidden (h : Json) (t : WTree) : WTree :=
  WTree.node { t.wdata with hidden := cjson_is_true h } t.kids

/-- The `value` branch of `sdui_parser_update`: bars and sliders get the
clamped value, any other class is untouched. -/
def update_value (v : Int) (t : WTree) : WTree :=
  match t.wdata.kind with
  | .bar => WTree.node { t.wdata with value := lv_clamp t.wdata.vmin v t.wdata.vmax } t.kids
  | .slider => WTree.node { t.wdata with value := lv_clamp t.wdata.vmin v t.wdata.vmax } t.kids
  | _ => t

/-- `sdui_parser_update`: require a string `id` that resolves in the registry
(otherwise a warning and no change), then apply the optional fields in the
order of the C: `text`, `hidden`, `bg_color` (unmodelled), `value`,
`indic_color` and `opa` (unmodelled), and `anim`. -/
def sdui_parser_update (json_str : String) (st : EngineState) : EngineState :=
  match cJSON_Parse json_str with
  | none => st
  | some root =>
      match cJSON_GetObjectItem root "id" with
      | some (.str id) =>
          match sdui_parser_find_by_id st id with
          | none => st
          | some path =>
              let sc1 := match cJSON_GetObjectItem root "text" with
                | some (.str txt) => modifyW (update_text txt) st.scene path
                | _ => st.scene
              let sc2 := match cJSON_GetObjectItem root "hidden" with
                | some h => modifyW (update_hidden h) sc1 path
                | _ => sc1
              let sc3 := match cJSON_GetObjectItem root "value" with
                | some (.num v) => modifyW (update_value v) sc2 path
                | _ => sc2
              let p := match cJSON_GetObjectItem root "anim" with
                | some (Json.obj ams) =>
                    match getW sc3 path with
                    | some t =>
                        let r := apply_anim (Json.obj ams) t.wdata st.spin_count
                        (modifyW (fun u => WTree.node r.1 u.kids) sc3 path, r.2)
                    | none => (sc3, st.spin_count)
                | _ => (sc3, st.spin_count)
              { scene := p.1, id_table := st.id_table, spin_count := p.2 }
      | _ => st

/-- A public engine operation: a full render or an incremental update. -/
inductive UiCmd where
  | render (s : String)
  | update (s : String)

/-- Run a sequence of engine operations. -/
def run_ui : EngineState → List UiCmd → EngineState
  | st, [] => st
  | st, .render s :: rest => run_ui (sdui_parser_render s st).1 rest
  | st, .update s :: rest => run_ui (sdui_parser_update s st) rest

/-- The user data bound to a slider's release event. -/
structure slider_data_t where
  on_change : String
  id : String

/-- Where a bus publish goes: the local fan-out or the uplink. -/
inductive BusTarget where
  | localT (topic : String)
  | upT (topic : String)
deriving DecidableEq

/-- `slider_changed_cb` on a release event: nothing on an empty `on_change`;
otherwise report the id and current value, routed by the URI scheme
(`strncmp` against `local://` and `server://` is a prefix test, and `uri + 8`
is modelled by dropping that prefix), with the bare-topic fallback publishing
up on `ui/action`.  (The ids the engine stores fit the 128-byte `snprintf`
buffer, so no truncation is modelled.) -/
def slider_changed_cb (sd : slider_data_t) (v : Int) : Option (BusTarget × String) :=
  if sd.on_change = "" then none
  else
    let pl := "\x7b\"id\":\"" ++ sd.id ++ "\",\"value\":" ++ toString v ++ "\x7d"
    if "local://".data.isPrefixOf sd.on_change.data then
      some (.localT ⟨sd.on_change.data.drop 8⟩, pl)
    else if "server://".data.isPrefixOf sd.on_change.data then
      some (.upT ⟨sd.on_change.data.drop 9⟩, pl)
    else some (.upT "ui/action", pl)

/-! ## Round-trip of the cJSON printer and parser

`cJSON_PrintUnformatted` output always re-parses to the printed value.  The
lemmas below invert the printer piece by piece: digits, integers, escaped
strings, then the three mutually recursive syntax classes. -/

theorem digit_char_toNat (k : Nat) (h : k < 10) : (Char.ofNat (48 + k)).toNat = 48 + k := by
  interval_cases k <;> decide

theorem digit_char_is_digit (k : Nat) (h : k < 10) : is_digit (Char.ofNat (48 + k)) = true := by
  interval_cases k <;> decide

theorem nat_digits_ne_nil (n : Nat) : nat_digits n ≠ [] := by
  unfold nat_digits
  split <;> simp

theorem nat_digits_digits (n : Nat) : ∀ c ∈ nat_digits n, is_digit c = true := by
  induction n using Nat.strong_induction_on with
  | _ n ih =>
    unfold nat_digits
    split
    · next h =>
      intro c hc
      simp only [List.mem_singleton] at hc
      subst hc
      exact digit_char_is_digit n h
    · next h =>
      intro c hc
      rw [List.mem_append] at hc
      rcases hc with hc | hc
      · exact ih (n / 10) (Nat.div_lt_self (by omega) (by omega)) c hc
      · simp only [List.mem_singleton] at hc
        subst hc
        exact digit_char_is_digit (n % 10) (Nat.mod_lt _ (by omega))

theorem digits_val_append (xs : List Char) (c : Char) :
    digits_val (xs ++ [c]) = digits_val xs * 10 + (c.toNat - 48) := by
  unfold digits_val
  rw [List.foldl_append]
  rfl

theorem digits_val_nat_digits (n : Nat) : digits_val (nat_digits n) = n := by
  induction n using Nat.strong_induction_on with
  | _ n ih =>
    unfold nat_digits
    split
    · next h =>
      show digits_val [Char.ofNat (48 + n)] = n
      unfold digits_val
      simp [digit_char_toNat n h]
    · next h =>
      rw [digits_val_append, ih (n / 10) (Nat.div_lt_self (by omega) (by omega)),
        digit_char_toNat (n % 10) (Nat.mod_lt _ (by omega))]
      omega

theorem take_digits_cons_nd (c : Char) (t : List Char) (h : is_digit c = false) :
    take_digits (c :: t) = ([], c :: t) := by
  simp [take_digits, h]

theorem num_stop_head (c : Char) (t : List Char) (h : num_stop (c :: t) = true) :
    is_digit c = false ∧ c ≠ '.' ∧ c ≠ 'e' ∧ c ≠ 'E' := by
  simp only [num_stop, Bool.not_eq_true', Bool.or_eq_false_iff, beq_eq_false_iff_ne] at h
  exact ⟨h.1.1.1, h.1.1.2, h.1.2, h.2⟩

theorem take_digits_num_stop (rest : List Char) (h : num_stop rest = true) :
    take_digits rest = ([], rest) := by
  match rest with
  | [] => rfl
  | c :: t => exact take_digits_cons_nd c t (num_stop_head c t h).1

theorem take_digits_run (ds rest : List Char)
    (hds : ∀ c ∈ ds, is_digit c = true)
    (hrest : take_digits rest = ([], rest)) :
    take_digits (ds ++ rest) = (ds, rest) := by
  induction ds with
  | nil => simpa using hrest
  | cons c t ih =>
    have hc := hds c (by simp)
    have ht := ih (fun x hx => hds x (by simp [hx]))
    simp [take_digits, hc, ht]

theorem nat_digits_cons (n : Nat) : ∃ c t, nat_digits n = c :: t ∧ is_digit c = true := by
  match h : nat_digits n with
  | [] => exact absurd h (nat_digits_ne_nil n)
  | c :: t => exact ⟨c, t, rfl, nat_digits_digits n c (h ▸ List.mem_cons_self ..)⟩

theorem digit_ne_minus (c : Char) (h : is_digit c = true) : c ≠ '-' := by
  intro he
  subst he
  exact absurd h (by decide)

theorem parse_number_int_chars (i : Int) (rest : List Char) (h : num_stop rest = true) :
    parse_number (int_chars i ++ rest) = some (.num i, rest) := by
  by_cases hi : i < 0
  · have harg : int_chars i ++ rest = '-' :: (nat_digits i.natAbs ++ rest) := by
      simp [int_chars, hi]
    have htd : take_digits (nat_digits i.natAbs ++ rest) = (nat_digits i.natAbs, rest) :=
      take_digits_run _ _ (nat_digits_digits _) (take_digits_num_stop rest h)
    rw [harg]
    simp only [parse_number, htd]
    rw [if_neg (nat_digits_ne_nil i.natAbs), if_pos h, digits_val_nat_digits]
    have hna : (i.natAbs : Int) = -i := Int.ofNat_natAbs_of_nonpos (by omega)
    rw [show (-(i.natAbs : Int)) = i by omega]
  · obtain ⟨c, t, hnd, hc⟩ := nat_digits_cons i.natAbs
    have harg : int_chars i ++ rest = c :: (t ++ rest) := by
      simp [int_chars, hi, hnd]
    have htd : take_digits (c :: (t ++ rest)) = (c :: t, rest) := by
      have := take_digits_run (c :: t) rest (hnd ▸ nat_digits_digits i.natAbs)
        (take_digits_num_stop rest h)
      simpa using this
    rw [harg]
    simp only [parse_number]
    have hcm := digit_ne_minus c hc
    split
    · next heq =>
      exact absurd (List.cons.inj heq).1 hcm
    · rw [htd]
      simp only
      rw [if_neg (by simp), if_pos h]
      have hdv : digits_val (c :: t) = i.natAbs := hnd ▸ digits_val_nat_digits i.natAbs
      rw [hdv]
      have hna : (i.natAbs : Int) = i := Int.natAbs_of_nonneg (by omega)
      rw [hna]

theorem hex_val_hex_digit (k : Nat) (h : k < 16) : hex_val (hex_digit k) = some k := by
  interval_cases k <;> decide

theorem hex4_00 (q r' : Nat) (hq : q < 16) (hr : r' < 16) :
    hex4 '0' '0' (hex_digit q) (hex_digit r') = some (16 * q + r') := by
  have hv : hex_val '0' = some 0 := by decide
  simp [hex4, hv, hex_val_hex_digit _ hq, hex_val_hex_digit _ hr]
  ring

theorem parse_string_rest_verbatim (acc : List Char) (c : Char) (r : List Char)
    (h1 : ¬(c = '\\')) (h2 : ¬(c = '"')) :
    parse_string_rest none acc (c :: r) = parse_string_rest none (c :: acc) r := by
  rw [parse_string_rest.eq_def]
  simp only [h1, h2, Option.isSome_none, if_false, Bool.false_eq_true]

theorem parse_string_rest_quote (acc r : List Char) :
    parse_string_rest none acc ('"' :: r) = some (⟨acc.reverse⟩, r) := by
  rw [parse_string_rest.eq_def]
  simp only [show ('"' = '\\') = False by decide, Option.isSome_none, Bool.false_eq_true,
    if_false, if_true, show ('"' = '"') = True by decide]

theorem parse_string_rest_u_scalar (acc : List Char) (a b c2 d : Char) (n : Nat) (r : List Char)
    (h : hex4 a b c2 d = some n) (hlt : n < 0xD800) :
    parse_string_rest none acc ('\\' :: 'u' :: a :: b :: c2 :: d :: r)
      = parse_string_rest none (Char.ofNat n :: acc) r := by
  rw [parse_string_rest.eq_def]
  simp only [show ('\\' = '\\') = True by decide, if_true, h]
  rw [if_pos (Or.inl hlt)]

theorem parse_string_escape (c : Char) (acc r : List Char) :
    parse_string_rest none acc (escape_char c ++ r) = parse_string_rest none (c :: acc) r := by
  rw [escape_char]
  by_cases h1 : c = '\\'
  · subst h1
    simp only [if_pos rfl, List.cons_append, List.nil_append]
    rw [parse_string_rest.eq_def]
    simp [unescape_char]
  · rw [if_neg h1]
    by_cases h2 : c = '"'
    · subst h2
      simp only [if_pos rfl, List.cons_append, List.nil_append]
      rw [parse_string_rest.eq_def]
      simp [unescape_char]
    · rw [if_neg h2]
      by_cases hb : c.toNat = 8
      · simp only [if_pos hb, List.cons_append, List.nil_append]
        rw [parse_string_rest.eq_def]
        simp only [show ('\\' = '\\') = True by decide, if_true]
        simp [unescape_char]
        rw [show Char.ofNat 8 = c by rw [← hb, Char.ofNat_toNat]]
      · rw [if_neg hb]
        by_cases hf : c.toNat = 12
        · simp only [if_pos hf, List.cons_append, List.nil_append]
          rw [parse_string_rest.eq_def]
          simp only [show ('\\' = '\\') = True by decide, if_true]
          simp [unescape_char]
          rw [show Char.ofNat 12 = c by rw [← hf, Char.ofNat_toNat]]
        · rw [if_neg hf]
          by_cases hn : c.toNat = 10
          · simp only [if_pos hn, List.cons_append, List.nil_append]
            rw [parse_string_rest.eq_def]
            simp only [show ('\\' = '\\') = True by decide, if_true]
            simp [unescape_char]
            rw [show '\n' = c by rw [show '\n' = Char.ofNat 10 from rfl, ← hn, Char.ofNat_toNat]]
          · rw [if_neg hn]
            by_cases hcr : c.toNat = 13
            · simp only [if_pos hcr, List.cons_append, List.nil_append]
              rw [parse_string_rest.eq_def]
              simp only [show ('\\' = '\\') = True by decide, if_true]
              simp [unescape_char]
              rw [show '\r' = c by
                rw [show '\r' = Char.ofNat 13 from rfl, ← hcr, Char.ofNat_toNat]]
            · rw [if_neg hcr]
              by_cases ht : c.toNat = 9
              · simp only [if_pos ht, List.cons_append, List.nil_append]
                rw [parse_string_rest.eq_def]
                simp only [show ('\\' = '\\') = True by decide, if_true]
                simp [unescape_char]
                rw [show '\t' = c by
                  rw [show '\t' = Char.ofNat 9 from rfl, ← ht, Char.ofNat_toNat]]
              · rw [if_neg ht]
                by_cases hlt : c.toNat < 32
                · simp only [if_pos hlt, List.cons_append, List.nil_append]
                  have hq : c.toNat / 16 < 16 := by omega
                  have hr : c.toNat % 16 < 16 := Nat.mod_lt _ (by omega)
                  have hhex : hex4 '0' '0' (hex_digit (c.toNat / 16))
                      (hex_digit (c.toNat % 16)) = some c.toNat := by
                    rw [hex4_00 _ _ hq hr]
                    congr 1
                    omega
                  rw [parse_string_rest_u_scalar acc _ _ _ _ c.toNat r hhex (by omega),
                    Char.ofNat_toNat]
                · simp only [if_neg hlt, List.cons_append, List.nil_append]
                  exact parse_string_rest_verbatim acc c r h1 h2

theorem parse_string_flat (cs : List Char) : ∀ (acc r : List Char),
    parse_string_rest none acc (cs.flatMap escape_char ++ '"' :: r)
      = some (⟨acc.reverse ++ cs⟩, r) := by
  induction cs with
  | nil =>
    intro acc r
    simp only [List.flatMap_nil, List.nil_append, List.append_nil]
    exact parse_string_rest_quote acc r
  | cons c cs ih =>
    intro acc r
    rw [List.flatMap_cons, List.append_assoc, parse_string_escape, ih]
    simp

theorem parse_string_print (s : String) (r : List Char) :
    parse_string_rest none [] (s.data.flatMap escape_char ++ '"' :: r) = some (s, r) := by
  rw [parse_string_flat]
  rfl

theorem num_stop_of_head (c : Char) (t : List Char)
    (h : (is_digit c || c == '.' || c == 'e' || c == 'E') = false) :
    num_stop (c :: t) = true := by
  rw [num_stop]
  simp [h]

theorem cjson_skip_ws_head (c : Char) (t : List Char) (h : 32 < c.toNat) :
    cjson_skip_ws (c :: t) = c :: t := by
  rw [cjson_skip_ws]
  rw [if_neg (by omega)]

theorem is_digit_gt32 (c : Char) (h : is_digit c = true) : 32 < c.toNat := by
  simp only [is_digit, Bool.and_eq_true, decide_eq_true_eq] at h
  omega

theorem is_digit_ne_keys (c : Char) (h : is_digit c = true) :
    c ≠ 'n' ∧ c ≠ 'f' ∧ c ≠ 't' ∧ c ≠ '"' ∧ c ≠ '[' ∧ c ≠ '\x7b' ∧ c ≠ ']' ∧ c ≠ '\x7d' ∧
    c ≠ ',' := by
  refine ⟨?_, ?_, ?_, ?_, ?_, ?_, ?_, ?_, ?_⟩ <;>
    (intro he; subst he; exact absurd h (by decide))

theorem int_chars_head (i : Int) :
    ∃ c t, int_chars i = c :: t ∧ (c == '-' || is_digit c) = true := by
  by_cases hi : i < 0
  · refine ⟨'-', nat_digits i.natAbs, ?_, by decide⟩
    simp [int_chars, hi]
  · obtain ⟨c, t, hnd, hc⟩ := nat_digits_cons i.natAbs
    refine ⟨c, t, ?_, by simp [hc]⟩
    simp [int_chars, hi, hnd]

theorem print_value_head (j : Json) :
    ∃ c t, print_value j = c :: t ∧ 32 < c.toNat ∧ c ≠ ']' ∧ c ≠ '\x7d' ∧ c ≠ ',' := by
  cases j with
  | nul => exact ⟨'n', ['u', 'l', 'l'], by rw [print_value], by decide, by decide, by decide,
      by decide⟩
  | bool b =>
    cases b with
    | false => exact ⟨'f', ['a', 'l', 's', 'e'], by rw [print_value], by decide, by decide,
        by decide, by decide⟩
    | true => exact ⟨'t', ['r', 'u', 'e'], by rw [print_value], by decide, by decide,
        by decide, by decide⟩
  | num i =>
    obtain ⟨c, t, hic, hcm⟩ := int_chars_head i
    rcases Bool.or_eq_true_iff.mp hcm with hm | hd
    · have hc : c = '-' := by simpa using hm
      subst hc
      exact ⟨'-', t, by rw [print_value, hic], by decide, by decide, by decide, by decide⟩
    · obtain ⟨_, _, _, _, _, _, h1, h2, h3⟩ := is_digit_ne_keys c hd
      exact ⟨c, t, by rw [print_value, hic], is_digit_gt32 c hd, h1, h2, h3⟩
  | str s =>
    exact ⟨'"', s.data.flatMap escape_char ++ ['"'], by rw [print_value, print_string],
      by decide, by decide, by decide, by decide⟩
  | arr es =>
    exact ⟨'[', print_items es ++ [']'], by rw [print_value], by decide, by decide,
      by decide, by decide⟩
  | obj ms =>
    exact ⟨'\x7b', print_members ms ++ ['\x7d'], by rw [print_value], by decide, by decide,
      by decide, by decide⟩

theorem skip_ws_print_value (j : Json) (x : List Char) :
    cjson_skip_ws (print_value j ++ x) = print_value j ++ x := by
  obtain ⟨c, t, hp, h32, _, _, _⟩ := print_value_head j
  rw [hp, List.cons_append, cjson_skip_ws_head _ _ h32]

theorem parse_value_to_number (f : Nat) (c : Char) (t : List Char)
    (h32 : 32 < c.toNat) (hn : c ≠ 'n') (hf : c ≠ 'f') (ht : c ≠ 't') (hq : c ≠ '"')
    (hlb : c ≠ '[') (hob : c ≠ '\x7b') :
    parse_value (f + 1) (c :: t)
      = if c == '-' || is_digit c then parse_number (c :: t) else none := by
  simp only [parse_value]
  rw [cjson_skip_ws_head c t h32]
  simp [hn, hf, ht, hq, hlb, hob]

theorem parse_value_nul (f : Nat) (rest : List Char) :
    parse_value (f + 1) (print_value .nul ++ rest) = some (.nul, rest) := by
  simp only [print_value, List.cons_append, List.nil_append]
  simp only [parse_value]
  rw [cjson_skip_ws_head 'n' _ (by decide)]
  rfl

theorem parse_value_false (f : Nat) (rest : List Char) :
    parse_value (f + 1) (print_value (.bool false) ++ rest) = some (.bool false, rest) := by
  simp only [print_value, List.cons_append, List.nil_append]
  simp only [parse_value]
  rw [cjson_skip_ws_head 'f' _ (by decide)]
  rfl

theorem parse_value_true (f : Nat) (rest : List Char) :
    parse_value (f + 1) (print_value (.bool true) ++ rest) = some (.bool true, rest) := by
  simp only [print_value, List.cons_append, List.nil_append]
  simp only [parse_value]
  rw [cjson_skip_ws_head 't' _ (by decide)]
  rfl

theorem parse_value_str (f : Nat) (s : String) (rest : List Char) :
    parse_value (f + 1) (print_value (.str s) ++ rest) = some (.str s, rest) := by
  have harg : print_value (.str s) ++ rest
      = '"' :: (s.data.flatMap escape_char ++ '"' :: rest) := by
    rw [print_value, print_string]
    simp [List.append_assoc]
  rw [harg]
  simp only [parse_value]
  rw [cjson_skip_ws_head '"' _ (by decide)]
  simp [parse_string_print]

theorem parse_value_num (f : Nat) (i : Int) (rest : List Char)
    (hstop : num_stop rest = true) :
    parse_value (f + 1) (print_value (.num i) ++ rest) = some (.num i, rest) := by
  obtain ⟨c, t, hic, hcm⟩ := int_chars_head i
  have harg : print_value (.num i) ++ rest = c :: (t ++ rest) := by
    rw [print_value, hic]
    rfl
  have hfacts : 32 < c.toNat ∧ c ≠ 'n' ∧ c ≠ 'f' ∧ c ≠ 't' ∧ c ≠ '"' ∧ c ≠ '[' ∧
      c ≠ '\x7b' := by
    rcases Bool.or_eq_true_iff.mp hcm with hm | hd
    · have hc : c = '-' := by simpa using hm
      subst hc
      exact ⟨by decide, by decide, by decide, by decide, by decide, by decide, by decide⟩
    · obtain ⟨k1, k2, k3, k4, k5, k6, _, _, _⟩ := is_digit_ne_keys c hd
      exact ⟨is_digit_gt32 c hd, k1, k2, k3, k4, k5, k6⟩
  obtain ⟨h32, hn, hf', ht, hq, hlb, hob⟩ := hfacts
  rw [harg, parse_value_to_number f c (t ++ rest) h32 hn hf' ht hq hlb hob, if_pos hcm,
    ← harg, print_value, parse_number_int_chars i rest hstop]

theorem parse_value_arr_nil (f : Nat) (rest : List Char) :
    parse_value (f + 1) (print_value (.arr []) ++ rest) = some (.arr [], rest) := by
  simp only [print_value, print_items, List.nil_append, List.cons_append]
  simp only [parse_value]
  rw [cjson_skip_ws_head '[' _ (by decide)]
  simp only []
  rw [cjson_skip_ws_head ']' _ (by decide)]
  rfl

theorem parse_value_obj_nil (f : Nat) (rest : List Char) :
    parse_value (f + 1) (print_value (.obj []) ++ rest) = some (.obj [], rest) := by
  simp only [print_value, print_members, List.nil_append, List.cons_append]
  simp only [parse_value]
  rw [cjson_skip_ws_head '\x7b' _ (by decide)]
  simp only []
  rw [cjson_skip_ws_head '\x7d' _ (by decide)]
  rfl

theorem parse_value_arr_cons (f : Nat) (e : Json) (es : List Json) (rest : List Char) :
    parse_value (f + 1) ('[' :: (print_items (e :: es) ++ ']' :: rest))
      = (match parse_array_rest f (print_items (e :: es) ++ ']' :: rest) with
         | some (vs, r3) => some (.arr vs, r3)
         | none => none) := by
  obtain ⟨c, t, hp, h32, hrb, _, _⟩ := print_value_head e
  have hitems : print_items (e :: es) ++ ']' :: rest
      = c :: (t ++ (print_items_sep es ++ ']' :: rest)) := by
    rw [print_items, hp]
    simp [List.append_assoc]
  have step : parse_value (f + 1) ('[' :: (print_items (e :: es) ++ ']' :: rest))
      = (match cjson_skip_ws (print_items (e :: es) ++ ']' :: rest) with
         | [] => none
         | c2 :: r2 =>
             if c2 = ']' then some (.arr [], r2)
             else
               match parse_array_rest f (c2 :: r2) with
               | some (vs, r3) => some (.arr vs, r3)
               | none => none) := rfl
  rw [step, hitems, cjson_skip_ws_head c _ h32]
  simp only [if_neg hrb]

theorem parse_value_obj_cons (f : Nat) (k : String) (v : Json) (ms : List (String × Json))
    (rest : List Char) :
    parse_value (f + 1) ('\x7b' :: (print_members ((k, v) :: ms) ++ '\x7d' :: rest))
      = (match parse_object_rest f (print_members ((k, v) :: ms) ++ '\x7d' :: rest) with
         | some (ms2, r3) => some (.obj ms2, r3)
         | none => none) := by
  have hmem : print_members ((k, v) :: ms) ++ '\x7d' :: rest
      = '"' :: ((k.data.flatMap escape_char ++ ['"'])
          ++ (':' :: (print_value v ++ (print_members_sep ms ++ '\x7d' :: rest)))) := by
    rw [print_members, print_string]
    simp [List.append_assoc]
  have step : parse_value (f + 1) ('\x7b' :: (print_members ((k, v) :: ms) ++ '\x7d' :: rest))
      = (match cjson_skip_ws (print_members ((k, v) :: ms) ++ '\x7d' :: rest) with
         | [] => none
         | c2 :: r2 =>
             if c2 = '\x7d' then some (.obj [], r2)
             else
               match parse_object_rest f (c2 :: r2) with
               | some (ms2, r3) => some (.obj ms2, r3)
               | none => none) := rfl
  rw [step, hmem, cjson_skip_ws_head '"' _ (by decide)]
  simp only [if_neg (by decide : ¬('"' = '\x7d'))]

theorem print_items_cons_cons (x : Json) (xs : List Json) :
    print_items_sep (x :: xs) = ',' :: print_items (x :: xs) := by
  rw [print_items_sep, print_items]

theorem print_members_cons_cons (m : String × Json) (ms : List (String × Json)) :
    print_members_sep (m :: ms) = ',' :: print_members (m :: ms) := by
  obtain ⟨k, v⟩ := m
  rw [print_members_sep, print_members]

mutual

theorem rt_value : ∀ (j : Json) (fuel : Nat) (rest : List Char),
    (print_value j).length < fuel → num_stop rest = true →
    parse_value fuel (print_value j ++ rest) = some (j, rest)
  | .nul, fuel, rest, hf, _ => by
      cases fuel with
      | zero => exact absurd hf (Nat.not_lt_zero _)
      | succ f => exact parse_value_nul f rest
  | .bool false, fuel, rest, hf, _ => by
      cases fuel with
      | zero => exact absurd hf (Nat.not_lt_zero _)
      | succ f => exact parse_value_false f rest
  | .bool true, fuel, rest, hf, _ => by
      cases fuel with
      | zero => exact absurd hf (Nat.not_lt_zero _)
      | succ f => exact parse_value_true f rest
  | .num i, fuel, rest, hf, hstop => by
      cases fuel with
      | zero => exact absurd hf (Nat.not_lt_zero _)
      | succ f => exact parse_value_num f i rest hstop
  | .str s, fuel, rest, hf, _ => by
      cases fuel with
      | zero => exact absurd hf (Nat.not_lt_zero _)
      | succ f => exact parse_value_str f s rest
  | .arr [], fuel, rest, hf, _ => by
      cases fuel with
      | zero => exact absurd hf (Nat.not_lt_zero _)
      | succ f => exact parse_value_arr_nil f rest
  | .obj [], fuel, rest, hf, _ => by
      cases fuel with
      | zero => exact absurd hf (Nat.not_lt_zero _)
      | succ f => exact parse_value_obj_nil f rest
  | .arr (e :: es), fuel, rest, hf, _ => by
      cases fuel with
      | zero => exact absurd hf (Nat.not_lt_zero _)
      | succ f =>
          have hlen : (print_value (Json.arr (e :: es))).length
              = (print_items (e :: es)).length + 2 := by
            rw [print_value]
            simp
          have harg : print_value (.arr (e :: es)) ++ rest
              = '[' :: (print_items (e :: es) ++ ']' :: rest) := by
            rw [print_value]
            simp [List.append_assoc]
          rw [harg, parse_value_arr_cons f e es rest,
            rt_items e es f rest (by omega)]
  | .obj ((k, v) :: ms), fuel, rest, hf, _ => by
      cases fuel with
      | zero => exact absurd hf (Nat.not_lt_zero _)
      | succ f =>
          have hlen : (print_value (Json.obj ((k, v) :: ms))).length
              = (print_members ((k, v) :: ms)).length + 2 := by
            rw [print_value]
            simp
          have harg : print_value (.obj ((k, v) :: ms)) ++ rest
              = '\x7b' :: (print_members ((k, v) :: ms) ++ '\x7d' :: rest) := by
            rw [print_value]
            simp [List.append_assoc]
          rw [harg, parse_value_obj_cons f k v ms rest,
            rt_members (k, v) ms f rest (by omega)]
termination_by j _ _ _ _ => sizeOf j

theorem rt_items : ∀ (e : Json) (es : List Json) (fuel : Nat) (rest : List Char),
    (print_items (e :: es)).length + 1 < fuel →
    parse_array_rest fuel (print_items (e :: es) ++ ']' :: rest) = some (e :: es, rest)
  | e, [], fuel, rest, hf => by
      cases fuel with
      | zero => exact absurd hf (Nat.not_lt_zero _)
      | succ f =>
          have hlen : (print_items [e]).length = (print_value e).length := by
            rw [print_items, print_items_sep]
            simp
          have harg : print_items [e] ++ ']' :: rest = print_value e ++ ']' :: rest := by
            rw [print_items, print_items_sep]
            simp
          have hv := rt_value e f (']' :: rest) (by omega)
            (num_stop_of_head ']' rest (by decide))
          simp only [parse_array_rest]
          rw [harg, hv]
          simp only []
          rw [cjson_skip_ws_head ']' _ (by decide)]
          rfl
  | e, x :: xs, fuel, rest, hf => by
      cases fuel with
      | zero => exact absurd hf (Nat.not_lt_zero _)
      | succ f =>
          have hlen : (print_items (e :: x :: xs)).length
              = (print_value e).length + 1 + (print_items (x :: xs)).length := by
            rw [print_items, print_items_cons_cons]
            simp
            omega
          have harg : print_items (e :: x :: xs) ++ ']' :: rest
              = print_value e ++ (',' :: (print_items (x :: xs) ++ ']' :: rest)) := by
            rw [print_items, print_items_cons_cons]
            simp [List.append_assoc]
          have hv := rt_value e f (',' :: (print_items (x :: xs) ++ ']' :: rest)) (by omega)
            (num_stop_of_head ',' _ (by decide))
          simp only [parse_array_rest]
          rw [harg, hv]
          simp only []
          rw [cjson_skip_ws_head ',' _ (by decide)]
          simp [rt_items x xs f rest (by omega)]
termination_by e es _ _ _ => sizeOf e + sizeOf es

theorem rt_members : ∀ (m : String × Json) (ms : List (String × Json)) (fuel : Nat)
    (rest : List Char),
    (print_members (m :: ms)).length + 1 < fuel →
    parse_object_rest fuel (print_members (m :: ms) ++ '\x7d' :: rest) = some (m :: ms, rest)
  | (k, v), [], fuel, rest, hf => by
      cases fuel with
      | zero => exact absurd hf (Nat.not_lt_zero _)
      | succ f =>
          have hlen : (print_members [(k, v)]).length
              = (print_string k).length + 1 + (print_value v).length := by
            rw [print_members, print_members_sep]
            simp
            omega
          have harg : print_members [(k, v)] ++ '\x7d' :: rest
              = '"' :: ((k.data.flatMap escape_char)
                  ++ ('"' :: (':' :: (print_value v ++ '\x7d' :: rest)))) := by
            rw [print_members, print_members_sep, print_string]
            simp [List.append_assoc]
          have hv := rt_value v f ('\x7d' :: rest) (by omega)
            (num_stop_of_head '\x7d' rest (by decide))
          simp only [parse_object_rest]
          rw [harg, cjson_skip_ws_head '"' _ (by decide)]
          simp only [if_pos rfl]
          rw [parse_string_flat]
          simp only [List.reverse_nil, List.nil_append]
          rw [cjson_skip_ws_head ':' _ (by decide)]
          simp only [if_pos rfl]
          rw [show (⟨k.data⟩ : String) = k from rfl, hv]
          simp only []
          rw [cjson_skip_ws_head '\x7d' _ (by decide)]
          rfl
  | (k, v), m2 :: ms, fuel, rest, hf => by
      cases fuel with
      | zero => exact absurd hf (Nat.not_lt_zero _)
      | succ f =>
          have hlen : (print_members ((k, v) :: m2 :: ms)).length
              = (print_string k).length + 1 + (print_value v).length + 1
                + (print_members (m2 :: ms)).length := by
            rw [print_members, print_members_cons_cons]
            simp
            omega
          have harg : print_members ((k, v) :: m2 :: ms) ++ '\x7d' :: rest
              = '"' :: ((k.data.flatMap escape_char)
                  ++ ('"' :: (':' :: (print_value v
                      ++ (',' :: (print_members (m2 :: ms) ++ '\x7d' :: rest)))))) := by
            rw [print_members, print_members_cons_cons, print_string]
            simp [List.append_assoc]
          have hv := rt_value v f (',' :: (print_members (m2 :: ms) ++ '\x7d' :: rest))
            (by omega) (num_stop_of_head ',' _ (by decide))
          simp only [parse_object_rest]
          rw [harg, cjson_skip_ws_head '"' _ (by decide)]
          simp only [if_pos rfl]
          rw [parse_string_flat]
          simp only [List.reverse_nil, List.nil_append]
          rw [cjson_skip_ws_head ':' _ (by decide)]
          simp only [if_pos rfl]
          rw [show (⟨k.data⟩ : String) = k from rfl, hv]
          simp only []
          rw [cjson_skip_ws_head ',' _ (by decide)]
          simp [rt_members m2 ms f rest (by omega)]
termination_by m ms _ _ _ => sizeOf m + sizeOf ms

end

theorem cJSON_Parse_print (j : Json) : cJSON_Parse (cJSON_PrintUnformatted j) = some j := by
  have h := rt_value j ((print_value j).length + 1) [] (by omega) rfl
  rw [List.append_nil] at h
  show (match parse_value ((print_value j).length + 1) (print_value j) with
        | some (x, _) => some x
        | none => none) = some j
  rw [h]

/-! ## The message-bus claims -/

theorem dispatch_loop_filterMap (subs : List Subscriber) (topic : String) (pl : Option String) :
    dispatch_loop subs topic pl
      = (subs.filter (fun s => s.topic == topic)).filterMap
          (fun s => s.cb.map (fun c => (c, pl))) := by
  induction subs with
  | nil => rfl
  | cons s rest ih =>
    rw [dispatch_loop]
    by_cases h : s.topic = topic
    · cases hcb : s.cb <;>
        simp [List.filter_cons, List.filterMap_cons, h, hcb, ih]
    · have hb : (s.topic == topic) = false := by
        simp [h]
      simp [List.filter_cons, hb, h, ih]

/-- One-step unfolding of `ws_run` on a cons cell. -/
theorem ws_run_cons (st : WsMgrState) (e : WsEvent) (es : List WsEvent) :
    ws_run st (e :: es)
      = ((ws_run (websocket_event_handler st e).1 es).1,
         (websocket_event_handler st e).2 ++ (ws_run (websocket_event_handler st e).1 es).2) :=
  rfl

/-- Running the handler over an appended event list composes. -/
theorem ws_run_append (st : WsMgrState) (es fs : List WsEvent) :
    ws_run st (es ++ fs)
      = ((ws_run (ws_run st es).1 fs).1,
         (ws_run st es).2 ++ (ws_run (ws_run st es).1 fs).2) := by
  induction es generalizing st with
  | nil => simp [ws_run]
  | cons e es ih => simp [ws_run_cons, ih, List.append_assoc]

/-- The handler on the first chunk of a frame (`payload_offset == 0`): any
stale buffer is dropped, a fresh `payload_len + 1`-byte buffer is allocated,
and the chunk is copied; a chunk that already covers the whole payload
completes the frame at once. -/
theorem ws_step_start (st : WsMgrState) (L : Nat) (c : List Char) (hle : c.length ≤ L) :
    websocket_event_handler st (.data ⟨1, 0, L, c⟩)
      = if c.length = L
        then ({ st with rx_buffer := none, rx_buffer_len := 0 }, [⟨c⟩])
        else ({ st with rx_buffer := some ⟨L + 1, c⟩, rx_buffer_len := c.length }, []) := by
  have hnlt : ¬ (L + 1 < 0 + c.length) := by omega
  have hnlt2 : ¬ (L + 1 < c.length) := by omega
  have hnle : ¬ (L + 1 ≤ L) := by omega
  by_cases hc : c.length = L
  · simp [websocket_event_handler, Nat.zero_add, hle, hnlt, hnlt2, hnle, hc]
  · have hne : ¬ (0 + c.length = L) := by omega
    simp [websocket_event_handler, Nat.zero_add, hle, hnlt, hnlt2, hne, hc]

/-- The handler on a continuation chunk that fits the guard: the chunk is
appended in place, and reaching `payload_len` fires the callback once and
frees the buffer. -/
theorem ws_step_mid (st : WsMgrState) (L off : Nat) (c acc : List Char)
    (hoff : off ≠ 0)
    (hbuf : st.rx_buffer = some ⟨L + 1, acc⟩)
    (hlen : st.rx_buffer_len = acc.length)
    (hle : acc.length + c.length ≤ L) :
    websocket_event_handler st (.data ⟨1, off, L, c⟩)
      = if acc.length + c.length = L
        then ({ st with rx_buffer := none, rx_buffer_len := 0 }, [⟨acc ++ c⟩])
        else ({ st with rx_buffer := some ⟨L + 1, acc ++ c⟩,
                        rx_buffer_len := acc.length + c.length }, []) := by
  have hnlt : ¬ (L + 1 < acc.length + c.length) := by omega
  have hnle : ¬ (L + 1 ≤ L) := by omega
  by_cases hc : acc.length + c.length = L
  · simp [websocket_event_handler, hoff, hbuf, hlen, hle, hnlt, hnle, hc]
  · simp [websocket_event_handler, hoff, hbuf, hlen, hle, hnlt, hc]

/-- A disconnect event fires no callback and frees any in-flight buffer. -/
theorem ws_disconnect_clears (st : WsMgrState) :
    (ws_run st [WsEvent.disconnected]).2 = []
    ∧ (ws_run st [WsEvent.disconnected]).1.rx_buffer = none := by
  cases h : st.rx_buffer <;> simp [ws_run, ws_run_cons, websocket_event_handler, h]

/-- A frame's remaining chunks, starting mid-frame with `acc` already
received: every chunk passes the guard, and the chunk that reaches
`payload_len` completes the frame with the full concatenation. -/
theorem ws_run_frame_rest (L : Nat) (chunks : List (List Char)) :
    ∀ (acc : List Char) (st : WsMgrState),
      chunks ≠ [] → (∀ ch ∈ chunks, ch ≠ []) →
      acc.length + (chunks.map List.length).sum = L →
      acc ≠ [] →
      st.rx_buffer = some ⟨L + 1, acc⟩ → st.rx_buffer_len = acc.length →
      ws_run st (frameEvents L chunks acc.length)
        = ({ st with rx_buffer := none, rx_buffer_len := 0 }, [⟨acc ++ chunks.join⟩]) := by
  induction chunks with
  | nil => intro acc st hne; exact absurd rfl hne
  | cons c rest ih =>
      intro acc st _ hch hsum hacc hbuf hlen
      have hcne : c ≠ [] := hch c (by simp)
      have hoff : acc.length ≠ 0 := by
        have := List.length_pos.mpr hacc; omega
      have hle : acc.length + c.length ≤ L := by
        simp only [List.map_cons, List.sum_cons] at hsum; omega
      rw [frameEvents, ws_run_cons]
      cases rest with
      | nil =>
          have hc : acc.length + c.length = L := by
            simp only [List.map_cons, List.map_nil, List.sum_cons, List.sum_nil] at hsum
            omega
          rw [ws_step_mid st L acc.length c acc hoff hbuf hlen hle, if_pos hc]
          simp [frameEvents, ws_run]
      | cons c2 rest2 =>
          have hc2 : 0 < c2.length := List.length_pos.mpr (hch c2 (by simp))
          have hclt : ¬ (acc.length + c.length = L) := by
            simp only [List.map_cons, List.sum_cons] at hsum; omega
          rw [ws_step_mid st L acc.length c acc hoff hbuf hlen hle, if_neg hclt]
          have hsum2 : (acc ++ c).length + ((c2 :: rest2).map List.length).sum = L := by
            simp only [List.map_cons, List.sum_cons, List.length_append] at hsum ⊢
            omega
          have h2 := ih (acc ++ c)
              { st with rx_buffer := some ⟨L + 1, acc ++ c⟩,
                        rx_buffer_len := (acc ++ c).length }
              (by simp) (fun ch h => hch ch (List.mem_cons_of_mem _ h)) hsum2
              (by simp [hacc]) rfl rfl
          rw [show acc.length + c.length = (acc ++ c).length by simp, h2]
          simp [List.append_assoc]

/-- A full frame delivered from its first chunk: the callback fires exactly
once, with the concatenation of the chunks, and the buffer is freed. -/
theorem ws_run_frame_complete (st : WsMgrState) (L : Nat) (chunks : List (List Char))
    (hne : chunks ≠ []) (hch : ∀ ch ∈ chunks, ch ≠ [])
    (hsum : (chunks.map List.length).sum = L) :
    ws_run st (frameEvents L chunks 0)
      = ({ st with rx_buffer := none, rx_buffer_len := 0 }, [⟨chunks.join⟩]) := by
  cases chunks with
  | nil => exact absurd rfl hne
  | cons c rest =>
      have hcne : c ≠ [] := hch c (by simp)
      have hle : c.length ≤ L := by
        simp only [List.map_cons, List.sum_cons] at hsum; omega
      rw [frameEvents, ws_run_cons]
      cases rest with
      | nil =>
          have hc : c.length = L := by
            simp only [List.map_cons, List.map_nil, List.sum_cons, List.sum_nil] at hsum
            omega
          rw [ws_step_start st L c hle, if_pos hc]
          simp [frameEvents, ws_run]
      | cons c2 rest2 =>
          have hc2 : 0 < c2.length := List.length_pos.mpr (hch c2 (by simp))
          have hclt : ¬ (c.length = L) := by
            simp only [List.map_cons, List.sum_cons] at hsum; omega
          rw [ws_step_start st L c hle, if_neg hclt]
          have hsum2 : c.length + ((c2 :: rest2).map List.length).sum = L := by
            simp only [List.map_cons, List.sum_cons] at hsum ⊢; omega
          have h2 := ws_run_frame_rest L (c2 :: rest2) c
              { st with rx_buffer := some ⟨L + 1, c⟩, rx_buffer_len := c.length }
              (by simp) (fun ch h => hch ch (List.mem_cons_of_mem _ h)) hsum2
              hcne rfl rfl
          rw [Nat.zero_add, h2]
          simp

/-- A proper prefix of a frame never completes: the chunks accumulate in the
buffer and no callback fires. -/
theorem ws_run_frame_incomplete (L : Nat) (pre : List (List Char)) :
    ∀ (acc : List Char) (st : WsMgrState),
      (∀ ch ∈ pre, ch ≠ []) →
      acc.length + (pre.map List.length).sum < L →
      acc ≠ [] →
      st.rx_buffer = some ⟨L + 1, acc⟩ → st.rx_buffer_len = acc.length →
      ws_run st (frameEvents L pre acc.length)
        = ({ st with rx_buffer := some ⟨L + 1, acc ++ pre.join⟩,
                     rx_buffer_len := (acc ++ pre.join).length }, []) := by
  induction pre with
  | nil =>
      intro acc st _ _ _ hbuf hlen
      obtain ⟨ic, rb, rl, ob⟩ := st
      simp only at hbuf hlen
      subst hbuf hlen
      simp [frameEvents, ws_run]
  | cons c rest ih =>
      intro acc st hch hlt hacc hbuf hlen
      have hcne : c ≠ [] := hch c (by simp)
      have hoff : acc.length ≠ 0 := by
        have := List.length_pos.mpr hacc; omega
      have hle : acc.length + c.length ≤ L := by
        simp only [List.map_cons, List.sum_cons] at hlt; omega
      have hclt : ¬ (acc.length + c.length = L) := by
        simp only [List.map_cons, List.sum_cons] at hlt; omega
      rw [frameEvents, ws_run_cons]
      rw [ws_step_mid st L acc.length c acc hoff hbuf hlen hle, if_neg hclt]
      have hlt2 : (acc ++ c).length + ((rest).map List.length).sum < L := by
        simp only [List.map_cons, List.sum_cons, List.length_append] at hlt ⊢
        omega
      have h2 := ih (acc ++ c)
          { st with rx_buffer := some ⟨L + 1, acc ++ c⟩,
                    rx_buffer_len := (acc ++ c).length }
          (fun ch h => hch ch (List.mem_cons_of_mem _ h)) hlt2
          (by simp [hacc]) rfl rfl
      rw [show acc.length + c.length = (acc ++ c).length by simp, h2]
      simp [List.append_assoc]

/-- A frame abandoned by a disconnect: no callback and the buffer freed. -/
theorem ws_run_disconnect_mid_frame (st : WsMgrState) (L : Nat) (pre : List (List Char))
    (hch : ∀ ch ∈ pre, ch ≠ [])
    (hlt : (pre.map List.length).sum < L) :
    (ws_run st (frameEvents L pre 0 ++ [WsEvent.disconnected])).2 = []
    ∧ (ws_run st (frameEvents L pre 0 ++ [WsEvent.disconnected])).1.rx_buffer = none := by
  rw [ws_run_append]
  cases pre with
  | nil =>
      have h := ws_disconnect_clears st
      exact ⟨h.1, h.2⟩
  | cons c rest =>
      have hcne : c ≠ [] := hch c (by simp)
      have hle : c.length ≤ L := by
        simp only [List.map_cons, List.sum_cons] at hlt; omega
      have hclt : ¬ (c.length = L) := by
        simp only [List.map_cons, List.sum_cons] at hlt; omega
      have hrun : ws_run st (frameEvents L (c :: rest) 0)
          = ({ st with rx_buffer := some ⟨L + 1, c ++ rest.join⟩,
                       rx_buffer_len := (c ++ rest.join).length }, []) := by
        rw [frameEvents, ws_run_cons]
        rw [ws_step_start st L c hle, if_neg hclt]
        cases rest with
        | nil => simp [frameEvents, ws_run]
        | cons c2 rest2 =>
            have hlt2 : c.length + (((c2 :: rest2)).map List.length).sum < L := by
              simp only [List.map_cons, List.sum_cons] at hlt ⊢; omega
            have h2 := ws_run_frame_incomplete L (c2 :: rest2) c
                { st with rx_buffer := some ⟨L + 1, c⟩, rx_buffer_len := c.length }
                (fun ch h => hch ch (List.mem_cons_of_mem _ h)) hlt2
                hcne rfl rfl
            rw [Nat.zero_add, h2]
            simp
      rw [hrun]
      have h := ws_disconnect_clears
          ({ st with rx_buffer := some ⟨L + 1, c ++ rest.join⟩,
                     rx_buffer_len := (c ++ rest.join).length } : WsMgrState)
      exact ⟨h.1, h.2⟩

/-- C3: chunks whose offsets are the running totals and whose data covers
exactly the interval from 0 to `payload_len` make the reassembler fire the
receive callback exactly once, with the concatenation of the chunks (the NUL
terminator lands at the reserved final byte of the allocation); a disconnect
arriving while the accumulated length is still short of `payload_len` frees
the in-flight buffer and yields zero callbacks for that frame. -/
theorem websocket_reassembly_exactly_once (st : WsMgrState) (L : Nat)
    (chunks pre : List (List Char))
    (hne : chunks ≠ []) (hch : ∀ ch ∈ chunks, ch ≠ [])
    (hcover : (chunks.map List.length).sum = L)
    (hpch : ∀ ch ∈ pre, ch ≠ [])
    (hshort : (pre.map List.length).sum < L) :
    (ws_run st (frameEvents L chunks 0)).2 = [⟨chunks.join⟩]
    ∧ (ws_run st (frameEvents L pre 0 ++ [WsEvent.disconnected])).2 = []
    ∧ (ws_run st (frameEvents L pre 0 ++ [WsEvent.disconnected])).1.rx_buffer = none := by
  refine ⟨?_, (ws_run_disconnect_mid_frame st L pre hpch hshort).1,
      (ws_run_disconnect_mid_frame st L pre hpch hshort).2⟩
  rw [ws_run_frame_complete st L chunks hne hch hcover]

/-- C3 witness: a three-byte frame in two chunks fires once with `"abc"`; a
disconnect after the first chunk fires nothing and frees the buffer. -/
theorem websocket_reassembly_exactly_once_witness :
    (ws_run ⟨true, none, 0, false⟩ (frameEvents 3 [['a', 'b'], ['c']] 0)).2 = ["abc"]
    ∧ (ws_run ⟨true, none, 0, false⟩
        (frameEvents 3 [['a', 'b']] 0 ++ [WsEvent.disconnected])).2 = []
    ∧ (ws_run ⟨true, none, 0, false⟩
        (frameEvents 3 [['a', 'b']] 0 ++ [WsEvent.disconnected])).1.rx_buffer = none := by
  have h := websocket_reassembly_exactly_once ⟨true, none, 0, false⟩ 3
      [['a', 'b'], ['c']] [['a', 'b']]
      (by decide) (by decide) (by decide) (by decide) (by decide)
  exact ⟨h.1.trans (by decide), h.2.1, h.2.2⟩

/-- Any data event of the frame (any op code, any offset, any chunk) keeps
the memory-safety invariant: writes happen only under the
`rx_buffer_len + data_len <= payload_len` guard, an over-long chunk is
silently dropped, and the NUL terminator lands on the reserved final byte. -/
theorem ws_inv_data_preserved (L : Nat) (st : WsMgrState) (op off : Nat) (dat : List Char)
    (hinv : ws_inv L st = true) :
    ws_inv L (websocket_event_handler st (.data ⟨op, off, L, dat⟩)).1 = true := by
  obtain ⟨ic, rb, rl, ob⟩ := st
  have hob : ob = false := by
    simp only [ws_inv, Bool.and_eq_true, Bool.not_eq_true'] at hinv
    exact hinv.1
  subst hob
  cases rb with
  | none =>
      simp only [websocket_event_handler]
      split_ifs <;> simp_all [ws_inv] <;> omega
  | some buf =>
      obtain ⟨cap, content⟩ := buf
      simp only [ws_inv, Bool.and_eq_true, Bool.not_eq_true', decide_eq_true_eq] at hinv
      obtain ⟨-, ⟨hcap, hrl⟩, hcl⟩ := hinv
      subst hcap
      subst hrl
      simp only [websocket_event_handler]
      split_ifs <;> simp_all [ws_inv] <;> omega

/-- The invariant holds along any chunk sequence of one frame. -/
theorem ws_inv_frame_run (L : Nat) (chunks : List (List Char)) :
    ∀ (off : Nat) (st : WsMgrState), ws_inv L st = true →
      ws_inv L (ws_run st (frameEvents L chunks off)).1 = true := by
  induction chunks with
  | nil =>
      intro off st h
      simpa [frameEvents, ws_run] using h
  | cons c rest ih =>
      intro off st h
      rw [frameEvents, ws_run_cons]
      exact ih _ _ (ws_inv_data_preserved L st 1 off c h)

/-- C10: over any sequence of incoming data chunks of a frame, the handler
writes into the receive buffer only under the
`rx_buffer_len + data_len <= payload_len` guard and puts the NUL terminator
at index `rx_buffer_len <= payload_len`; chunks that would exceed
`payload_len` are silently dropped, so every write stays inside the
`payload_len + 1` bytes allocated for the frame (`ws_inv`: the `oob` flag,
raised exactly when a `memcpy` or the terminator would leave the allocation,
stays clear, and the buffer never holds more than `payload_len` bytes). -/
theorem websocket_writes_within_allocation (st : WsMgrState) (L off : Nat)
    (chunks : List (List Char)) (hinv : ws_inv L st = true) :
    ws_inv L (ws_run st (frameEvents L chunks off)).1 = true :=
  ws_inv_frame_run L chunks off st hinv

/-- C10 witness: a three-byte chunk against a two-byte frame is dropped and
leaves every write in bounds. -/
theorem websocket_writes_within_allocation_witness :
    ws_inv 2 (ws_run ⟨true, none, 0, false⟩ (frameEvents 2 [['a', 'b', 'c']] 0)).1 = true :=
  websocket_writes_within_allocation ⟨true, none, 0, false⟩ 2 0 [['a', 'b', 'c']] (by decide)

/-- C1: an envelope that parses as a JSON object with a string `topic` field
invokes, in registration order, exactly the subscribers registered with a
callback for that topic, each with the payload materialised as a string: the
literal value when the payload is a JSON string, its compact re-serialisation
otherwise. -/
theorem route_down_invokes_matching_subscribers (subs : List Subscriber)
    (raw : String) (root : Json) (t : String) (pj : Json)
    (hparse : cJSON_Parse raw = some root)
    (htopic : cJSON_GetObjectItem root "topic" = some (.str t))
    (hpayload : cJSON_GetObjectItem root "payload" = some pj) :
    sdui_bus_route_down subs raw
      = (subs.filter (fun s => s.topic == t)).filterMap
          (fun s => s.cb.map (fun c => (c, some (payload_as_string pj)))) := by
  simp only [sdui_bus_route_down, hparse, htopic, hpayload, Option.map]
  exact dispatch_loop_filterMap ..

/-- C1 witness: a four-entry table, two live `sensor` subscribers and one
with a NULL callback; the object payload is re-serialised. -/
theorem route_down_invokes_matching_subscribers_witness :
    sdui_bus_route_down
        [⟨"sensor", some 10⟩, ⟨"other", some 11⟩, ⟨"sensor", none⟩, ⟨"sensor", some 12⟩]
        "\x7b\"topic\":\"sensor\",\"payload\":\x7b\"v\":7\x7d\x7d"
      = [(10, some "\x7b\"v\":7\x7d"), (12, some "\x7b\"v\":7\x7d")] := by
  have h := route_down_invokes_matching_subscribers
      [⟨"sensor", some 10⟩, ⟨"other", some 11⟩, ⟨"sensor", none⟩, ⟨"sensor", some 12⟩]
      "\x7b\"topic\":\"sensor\",\"payload\":\x7b\"v\":7\x7d\x7d"
      (Json.obj [("topic", Json.str "sensor"), ("payload", Json.obj [("v", Json.num 7)])])
      "sensor" (Json.obj [("v", Json.num 7)]) rfl rfl rfl
  exact h.trans (by simp [payload_as_string, cJSON_PrintUnformatted, print_value, print_members, print_members_sep, print_string, escape_char, int_chars, nat_digits])

/-- C9: an envelope with a string `topic` but no `payload` member at all
still invokes every matching subscriber, passing the NULL payload pointer
(`none`) to each callback. -/
theorem route_down_null_payload (subs : List Subscriber) (raw : String)
    (root : Json) (t : String)
    (hparse : cJSON_Parse raw = some root)
    (htopic : cJSON_GetObjectItem root "topic" = some (.str t))
    (hpayload : cJSON_GetObjectItem root "payload" = none) :
    sdui_bus_route_down subs raw
      = (subs.filter (fun s => s.topic == t)).filterMap
          (fun s => s.cb.map (fun c => (c, (none : Option String)))) := by
  simp only [sdui_bus_route_down, hparse, htopic, hpayload]
  exact dispatch_loop_filterMap ..

/-- C9 witness: a payload-less envelope reaches both live `sensor`
subscribers with `none`. -/
theorem route_down_null_payload_witness :
    sdui_bus_route_down
        [⟨"sensor", some 10⟩, ⟨"other", some 11⟩, ⟨"sensor", some 12⟩]
        "\x7b\"topic\":\"sensor\"\x7d"
      = [(10, none), (12, none)] := by
  have h := route_down_null_payload
      [⟨"sensor", some 10⟩, ⟨"other", some 11⟩, ⟨"sensor", some 12⟩]
      "\x7b\"topic\":\"sensor\"\x7d"
      (Json.obj [("topic", Json.str "sensor")]) "sensor" rfl rfl rfl
  exact h.trans (by simp [payload_as_string, cJSON_PrintUnformatted, print_value, print_members, print_members_sep, print_string, escape_char, int_chars, nat_digits])

/-- C2: the wire frame of `sdui_bus_publish_up t p` re-parses to the envelope
object whose `topic` is `t` and whose `payload` is the JSON value of `p` when
`p` parses as JSON, the JSON string `p` otherwise. -/
theorem publish_up_envelope_roundtrip (t p : String) :
    cJSON_Parse (sdui_bus_publish_up t p)
      = some (.obj [("topic", .str t),
          ("payload", match cJSON_Parse p with
                      | some pj => pj
                      | none => .str p)]) := by
  unfold sdui_bus_publish_up
  exact cJSON_Parse_print _

/-- C8: `websocket_send_json` hands the payload to the client exactly when
the link is connected, the client handle exists and the payload is non-NULL;
in every other state the call sends nothing (and surfaces no error, the C
returning `void`). -/
theorem websocket_send_json_connected_only (link : WsLink) (payload : Option String) :
    websocket_send_json link payload
      = if link.is_connected ∧ link.client ∧ payload.isSome
        then [payload.getD ""] else [] := by
  obtain ⟨c, cl⟩ := link
  cases c <;> cases cl <;> cases payload <;> simp [websocket_send_json]

/-- C7: a string that does not parse as JSON leaves the whole engine state
(scene, registry, spin counter) unchanged and starts no fade animation. -/
theorem render_parse_error_atomic (s : String) (st : EngineState)
    (h : cJSON_Parse s = none) :
    sdui_parser_render s st = (st, false) := by
  unfold sdui_parser_render
  rw [h]

/-- C7 witness: malformed input against a non-trivial engine state. -/
theorem render_parse_error_atomic_witness :
    cJSON_Parse "oops" = none
    ∧ sdui_parser_render "oops"
        ⟨[WTree.node (default_wdata .label) []], [("x", [0])], 1⟩
      = (⟨[WTree.node (default_wdata .label) []], [("x", [0])], 1⟩, false) :=
  ⟨rfl, render_parse_error_atomic "oops"
      ⟨[WTree.node (default_wdata .label) []], [("x", [0])], 1⟩ rfl⟩

/-- C5 counterexample: a slider bound to the bare URI `do/thing` publishes up
on `ui/action`, not on the topic `ui/click` named by the specification. -/
theorem slider_bare_uri_counterexample :
    slider_changed_cb ⟨"do/thing", "s1"⟩ 42
      = some (.upT "ui/action", "\x7b\"id\":\"s1\",\"value\":42\x7d")
    ∧ BusTarget.upT "ui/action" ≠ BusTarget.upT "ui/click" :=
  ⟨rfl, by decide⟩

/-- C5 (amended): a slider whose non-empty `on_change` URI carries neither
the `local://` nor the `server://` scheme publishes up on the canonical topic
`ui/action`, reporting the widget's id and current value. -/
theorem slider_bare_uri_publishes_ui_action (sd : slider_data_t) (v : Int)
    (hne : sd.on_change ≠ "")
    (hl : "local://".data.isPrefixOf sd.on_change.data = false)
    (hs : "server://".data.isPrefixOf sd.on_change.data = false) :
    slider_changed_cb sd v
      = some (.upT "ui/action",
          "\x7b\"id\":\"" ++ sd.id ++ "\",\"value\":" ++ toString v ++ "\x7d") := by
  unfold slider_changed_cb
  rw [if_neg hne, if_neg (by simp [hl]), if_neg (by simp [hs])]

/-- C5 witness: a bare URI with a negative slider value. -/
theorem slider_bare_uri_publishes_ui_action_witness :
    slider_changed_cb ⟨"vol/set", "s2"⟩ (-3)
      = some (.upT "ui/action", "\x7b\"id\":\"s2\",\"value\":-3\x7d") := by
  have h := slider_bare_uri_publishes_ui_action ⟨"vol/set", "s2"⟩ (-3)
      (by decide) (by decide) (by decide)
  exact h.trans rfl

/-! ## The spin-animation concurrency bound -/

theorem apply_anim_le (an : Json) (w : WData) (cnt : Nat) (h : cnt ≤ MAX_SPIN_ANIM) :
    (apply_anim an w cnt).2 ≤ MAX_SPIN_ANIM := by
  unfold apply_anim
  split
  · split_ifs <;> simp_all [MAX_SPIN_ANIM] <;> omega
  · simpa using h

mutual

/-- Building one node keeps the spin counter within the cap. -/
theorem parse_node_spin_le (fuel : Nat) (node : Json) (path : List Nat)
    (tbl : List (String × List Nat)) (cnt : Nat) (h : cnt ≤ MAX_SPIN_ANIM) :
    (parse_node fuel node path tbl cnt).2.2 ≤ MAX_SPIN_ANIM := by
  match fuel with
  | 0 => simpa [parse_node] using h
  | fuel + 1 =>
      rw [parse_node]
      split
      · split
        · simpa using h
        · simp only []
          split
          · exact parse_children_spin_le fuel _ _ _ _ _ _
              (by split
                  · exact apply_anim_le _ _ _ h
                  · simpa using h)
          · simp only []
            split
            · exact apply_anim_le _ _ _ h
            · simpa using h
      · simpa using h
termination_by (fuel, 0)

/-- The children loop keeps the spin counter within the cap. -/
theorem parse_children_spin_le (fuel : Nat) (cs : List Json) (path : List Nat) (idx : Nat)
    (acc : List WTree) (tbl : List (String × List Nat)) (cnt : Nat)
    (h : cnt ≤ MAX_SPIN_ANIM) :
    (parse_children fuel cs path idx acc tbl cnt).2.2 ≤ MAX_SPIN_ANIM := by
  match cs with
  | [] => simpa [parse_children] using h
  | c :: rest =>
      rw [parse_children]
      have hn := parse_node_spin_le fuel c (path ++ [idx]) tbl cnt h
      split
      next w tbl2 cnt2 heq =>
        rw [heq] at hn
        exact parse_children_spin_le fuel rest path (idx + 1) (acc ++ [w]) tbl2 cnt2 hn
      next tbl2 cnt2 heq =>
        rw [heq] at hn
        exact parse_children_spin_le fuel rest path idx acc tbl2 cnt2 hn
termination_by (fuel, cs.length + 1)

end

/-- A render leaves the spin counter within the cap. -/
theorem render_spin_le (s : String) (st : EngineState) (h : st.spin_count ≤ MAX_SPIN_ANIM) :
    (sdui_parser_render s st).1.spin_count ≤ MAX_SPIN_ANIM := by
  unfold sdui_parser_render
  split
  · simpa using h
  · split
    · exact parse_children_spin_le _ _ _ _ _ _ _ (Nat.zero_le _)
    · split
      · exact parse_children_spin_le _ _ _ _ _ _ _ (Nat.zero_le _)
      · simp only []
        split
        · exact parse_node_spin_le _ _ _ _ _ (Nat.zero_le _)
        · exact parse_node_spin_le _ _ _ _ _ (Nat.zero_le _)
    · exact Nat.zero_le _

/-- An update leaves the spin counter within the cap. -/
theorem update_spin_le (s : String) (st : EngineState) (h : st.spin_count ≤ MAX_SPIN_ANIM) :
    (sdui_parser_update s st).spin_count ≤ MAX_SPIN_ANIM := by
  unfold sdui_parser_update
  split
  · exact h
  · split
    · split
      · exact h
      · simp only []
        split
        · split
          · exact apply_anim_le _ _ _ h
          · simpa using h
        · simpa using h
    · exact h

/-- The cap holds across any command sequence. -/
theorem run_ui_spin_le (cmds : List UiCmd) :
    ∀ st : EngineState, st.spin_count ≤ MAX_SPIN_ANIM →
      (run_ui st cmds).spin_count ≤ MAX_SPIN_ANIM := by
  induction cmds with
  | nil =>
      intro st h
      simpa [run_ui] using h
  | cons c rest ih =>
      intro st h
      cases c with
      | render s =>
          rw [run_ui]
          exact ih _ (render_spin_le s st h)
      | update s =>
          rw [run_ui]
          exact ih _ (update_spin_le s st h)

/-- C6: after any sequence of render and update operations the spin counter
stays at most `MAX_SPIN_ANIM = 2`; a spin request on an image widget succeeds
(marks it spinning, increments the counter) exactly while fewer than two are
active and is denied at two; `spin_delete_cb`, run when a spinning image is
deleted, decrements the counter (so a later request succeeds); and a spin
request on a non-image widget is rejected without touching the counter. -/
theorem spin_counter_bounded (st : EngineState) (cmds : List UiCmd)
    (hst : st.spin_count ≤ MAX_SPIN_ANIM) (w w2 : WData) (cnt : Nat)
    (himg : w.kind = .image) (hcnt : cnt < MAX_SPIN_ANIM) (hw2 : w2.kind ≠ .image) :
    (run_ui st cmds).spin_count ≤ MAX_SPIN_ANIM
    ∧ apply_anim (Json.obj [("type", Json.str "spin")]) w cnt
        = ({ w with spinning := true }, cnt + 1)
    ∧ apply_anim (Json.obj [("type", Json.str "spin")]) w MAX_SPIN_ANIM
        = (w, MAX_SPIN_ANIM)
    ∧ spin_delete_cb (cnt + 1) = cnt
    ∧ apply_anim (Json.obj [("type", Json.str "spin")]) w2 cnt = (w2, cnt) := by
  have hty : cJSON_GetObjectItem (Json.obj [("type", Json.str "spin")]) "type"
      = some (Json.str "spin") := rfl
  refine ⟨run_ui_spin_le cmds st hst, ?_, ?_, ?_, ?_⟩
  · unfold apply_anim
    rw [hty]
    simp [himg, Nat.not_le.mpr hcnt]
  · unfold apply_anim
    rw [hty]
    simp [himg]
  · simp [spin_delete_cb]
  · unfold apply_anim
    rw [hty]
    simp [hw2]

/-- C6 witness: counts 1 and 2 for an image widget, denial at the cap, the
deletion hook, and a label rejection. -/
theorem spin_counter_bounded_witness :
    (run_ui ⟨[], [], 0⟩ [UiCmd.render "[]"]).spin_count ≤ MAX_SPIN_ANIM
    ∧ apply_anim (Json.obj [("type", Json.str "spin")]) (default_wdata .image) 1
        = ({ default_wdata .image with spinning := true }, 2)
    ∧ apply_anim (Json.obj [("type", Json.str "spin")]) (default_wdata .image) MAX_SPIN_ANIM
        = (default_wdata .image, MAX_SPIN_ANIM)
    ∧ spin_delete_cb 2 = 1
    ∧ apply_anim (Json.obj [("type", Json.str "spin")]) (default_wdata .label) 1
        = (default_wdata .label, 1) :=
  spin_counter_bounded ⟨[], [], 0⟩ [UiCmd.render "[]"] (by decide)
      (default_wdata .image) (default_wdata .label) 1 rfl (by decide) (by decide)

/-! ## Where an update's `text` lands -/

/-- Lookup after in-place modification along the same (non-empty) path. -/
theorem getW_modifyW (f : WTree → WTree) :
    ∀ (ts : List WTree) (p : List Nat), p ≠ [] →
      getW (modifyW f ts p) p = (getW ts p).map f
  | _, [], hp => absurd rfl hp
  | ts, [i], _ => by
      cases hti : ts[i]? with
      | none => simp [modifyW, getW, hti]
      | some t => simp [modifyW, getW, hti, List.getElem?_set_self']
  | ts, i :: j :: p, _ => by
      cases hti : ts[i]? with
      | none => simp [modifyW, getW, hti]
      | some t =>
          simp only [modifyW, getW, hti, List.getElem?_set_self', Option.map]
          exact getW_modifyW f t.kids (j :: p) (by simp)

/-- C4 (amended): for an update payload with a resolvable string `id` and a
string `text` field (and none of the other modelled update keys), the text is
applied to the target widget itself exactly when the target has no children,
and otherwise to the target's first child: the deciding condition is the
child count, not whether the target is a label. -/
theorem update_text_targets_first_child (st : EngineState) (s id txt : String)
    (root : Json) (path : List Nat) (t : WTree)
    (hparse : cJSON_Parse s = some root)
    (hid : cJSON_GetObjectItem root "id" = some (.str id))
    (hfind : sdui_parser_find_by_id st id = some path)
    (htext : cJSON_GetObjectItem root "text" = some (.str txt))
    (hhid : cJSON_GetObjectItem root "hidden" = none)
    (hval : cJSON_GetObjectItem root "value" = none)
    (hanim : cJSON_GetObjectItem root "anim" = none)
    (hget : getW st.scene path = some t) :
    getW (sdui_parser_update s st).scene path = some (update_text txt t)
    ∧ (t.kids = [] → update_text txt t = lv_label_set_text t txt)
    ∧ ∀ k rest, t.kids = k :: rest →
        update_text txt t = WTree.node t.wdata (lv_label_set_text k txt :: rest) := by
  have hpne : path ≠ [] := by
    intro hp
    subst hp
    simp [getW] at hget
  refine ⟨?_, ?_, ?_⟩
  · simp only [sdui_parser_update, hparse, hid, hfind, htext, hhid, hval, hanim]
    rw [getW_modifyW (update_text txt) st.scene path hpne, hget]
    rfl
  · intro hk
    rw [update_text, hk]
  · intro k rest hk
    rw [update_text, hk]

/-- C4 witness: a childless label takes the text itself; a button with its
inline label child hands it to that first child. -/
theorem update_text_targets_first_child_witness :
    getW (sdui_parser_update "\x7b\"id\":\"B\",\"text\":\"go\"\x7d"
        ⟨[WTree.node (default_wdata .button) [WTree.node (default_wdata .label) []]],
         [("B", [0])], 0⟩).scene [0]
      = some (update_text "go"
          (WTree.node (default_wdata .button) [WTree.node (default_wdata .label) []]))
    ∧ ((WTree.node (default_wdata .button) [WTree.node (default_wdata .label) []]).kids = []
        → update_text "go" (WTree.node (default_wdata .button)
            [WTree.node (default_wdata .label) []])
          = lv_label_set_text (WTree.node (default_wdata .button)
              [WTree.node (default_wdata .label) []]) "go")
    ∧ ∀ k rest,
        (WTree.node (default_wdata .button) [WTree.node (default_wdata .label) []]).kids
          = k :: rest →
        update_text "go" (WTree.node (default_wdata .button)
            [WTree.node (default_wdata .label) []])
          = WTree.node (WTree.node (default_wdata .button)
              [WTree.node (default_wdata .label) []]).wdata
              (lv_label_set_text k "go" :: rest) :=
  update_text_targets_first_child
      ⟨[WTree.node (default_wdata .button) [WTree.node (default_wdata .label) []]],
       [("B", [0])], 0⟩
      "\x7b\"id\":\"B\",\"text\":\"go\"\x7d" "B" "go"
      (Json.obj [("id", Json.str "B"), ("text", Json.str "go")]) [0]
      (WTree.node (default_wdata .button) [WTree.node (default_wdata .label) []])
      rfl rfl rfl rfl rfl rfl rfl rfl

/-- C4 counterexample: the update routes `text` by child count, not by the
target's class: a label that has a child keeps its own text (the claim says a
label target receives it) and the text lands on the first child instead. -/
theorem update_text_label_with_child_counterexample :
    (getW (sdui_parser_update "\x7b\"id\":\"L\",\"text\":\"new\"\x7d"
        ⟨[WTree.node { default_wdata .label with text := "old" }
            [WTree.node (default_wdata .label) []]], [("L", [0])], 0⟩).scene [0]).map
        (fun u => (u.wdata.kind, u.wdata.text))
      = some (WidgetKind.label, "old")
    ∧ (getW (sdui_parser_update "\x7b\"id\":\"L\",\"text\":\"new\"\x7d"
        ⟨[WTree.node { default_wdata .label with text := "old" }
            [WTree.node (default_wdata .label) []]], [("L", [0])], 0⟩).scene [0, 0]).map
        (fun u => u.wdata.text)
      = some "new"
    ∧ "old" ≠ "new" :=
  ⟨rfl, rfl, by decide⟩

end SduiSpec
